import Mathlib

/-!
Shallow embedding of the dithering program (src/main.ts) and verification of
the specification claims about it.

Modelling conventions:
- A JS number that the program only ever holds at integer values is embedded
  as an integer type; the fractional error-diffusion arithmetic is embedded
  in exact rational arithmetic, which coincides with the float64 arithmetic
  of the source on the values the program produces (integers up to 255 and
  dyadic fractions with denominator 16).
- The working buffer of the source is a JS Uint8ClampedArray: it stores
  unsigned bytes, and every assignment passes through the ToUint8Clamp
  conversion (clamp to the range 0..255, round to the nearest integer, round
  half to even).  The buffer is embedded as a list of naturals and each
  assignment goes through the function toUint8Clamp below.  An out-of-range
  assignment to a Uint8ClampedArray is silently ignored, which matches the
  behaviour of List.set; out-of-range reads never occur for buffers whose
  length agrees with the declared width, height and the four channels.
- The square-root distance comparison of the source is embedded with the
  exact real square root; a decidability instance (justified by the strict
  monotonicity of the square root on nonnegative reals) keeps the definition
  executable.  On the integer radicands the program produces, the correctly
  rounded float64 square root induces the same strict order, because
  consecutive admissible radicands are separated by far more than one unit
  in the last place.
-/

/-- ToUint8Clamp conversion applied by every store into a Uint8ClampedArray:
clamp to the interval from 0 to 255 and round to the nearest integer, rounding
halves to the nearest even integer. -/
def toUint8Clamp (q : ℚ) : ℕ :=
  if q ≤ 0 then 0
  else if 255 ≤ q then 255
  else if q - ⌊q⌋ < mkRat 1 2 then (⌊q⌋).toNat
  else if mkRat 1 2 < q - ⌊q⌋ then (⌊q⌋).toNat + 1
  else if (⌊q⌋).toNat % 2 = 0 then (⌊q⌋).toNat else (⌊q⌋).toNat + 1

/-- The hardcoded eight-colour palette of the source (constant PALETTE). -/
def PALETTE : List (ℕ × ℕ × ℕ) :=
  [(0, 0, 0),       -- Black
   (255, 255, 255), -- White
   (255, 0, 0),     -- Red
   (0, 255, 0),     -- Green
   (0, 0, 255),     -- Blue
   (255, 255, 0),   -- Yellow
   (0, 255, 255),   -- Cyan
   (255, 0, 255)]   -- Magenta

/-- Squared Euclidean distance between an input colour and a palette entry,
the radicand of the distance expression computed inside the loop of
findClosestPaletteColor. -/
def sqDist (r g b : ℤ) (p : ℕ × ℕ × ℕ) : ℤ :=
  (r - p.1) ^ 2 + (g - p.2.1) ^ 2 + (b - p.2.2) ^ 2

/-- Comparisons of real square roots of integers are decidable: the square
root is monotone, vanishing on nonpositive arguments and strictly increasing
on nonnegative ones. -/
instance decSqrtLtSqrt (a b : ℤ) : Decidable (Real.sqrt a < Real.sqrt b) :=
  decidable_of_iff (max a 0 < b) (by
    constructor
    · intro hmax
      have hb : (0:ℤ) < b := lt_of_le_of_lt (le_max_right a 0) hmax
      by_cases ha : 0 ≤ a
      · have hab : a < b := by simpa [max_eq_left ha] using hmax
        exact Real.sqrt_lt_sqrt (by exact_mod_cast ha) (by exact_mod_cast hab)
      · have h0 : Real.sqrt a = 0 := Real.sqrt_eq_zero'.mpr (by
          push_neg at ha; exact_mod_cast le_of_lt ha)
        rw [h0]
        exact Real.sqrt_pos.mpr (by exact_mod_cast hb)
    · intro hlt
      have hb0 : (0:ℝ) < Real.sqrt b := lt_of_le_of_lt (Real.sqrt_nonneg _) hlt
      have hb : (0:ℤ) < b := by exact_mod_cast Real.sqrt_pos.mp hb0
      by_cases ha : 0 ≤ a
      · have : (a:ℝ) < b := by
          have := (Real.sqrt_lt_sqrt_iff (by exact_mod_cast ha)).mp hlt
          exact this
        have hab : a < b := by exact_mod_cast this
        simpa [max_eq_left ha] using hab
      · push_neg at ha
        simpa [max_eq_right (le_of_lt ha)] using hb)

/-- One iteration of the loop body of findClosestPaletteColor: the state is
the pair of minDistance and closestColor.  The minDistance component stores
the radicand whose square root is the source variable minDistance; the value
none models the initialisation minDistance = Infinity, against which any
finite distance compares smaller. -/
def paletteStep (r g b : ℤ) (st : Option ℤ × (ℕ × ℕ × ℕ)) (p : ℕ × ℕ × ℕ) :
    Option ℤ × (ℕ × ℕ × ℕ) :=
  let d := sqDist r g b p
  match st with
  | (none, _) => (some d, p)
  | (some m, c) =>
      if Real.sqrt (d:ℝ) < Real.sqrt (m:ℝ) then (some d, p) else (some m, c)

/-- The loop of findClosestPaletteColor generalised over the palette list it
scans; the source function is this definition applied to the constant
PALETTE.  The initial state is minDistance = Infinity (modelled none) and
closestColor = the black triple. -/
def findClosestPaletteColorIn (pal : List (ℕ × ℕ × ℕ)) (r g b : ℤ) :
    ℕ × ℕ × ℕ :=
  (pal.foldl (paletteStep r g b) (none, (0, 0, 0))).2

/-- Function findClosestPaletteColor of the source: nearest palette colour
under Euclidean distance, scanning the hardcoded PALETTE. -/
def findClosestPaletteColor (r g b : ℤ) : ℕ × ℕ × ℕ :=
  findClosestPaletteColorIn PALETTE r g b

/-- Variant of the palette scan that compares squared distances instead of
square roots, following the performance note of the specification; written
to be compared with the implemented matcher. -/
def paletteStepSq (r g b : ℤ) (st : Option ℤ × (ℕ × ℕ × ℕ)) (p : ℕ × ℕ × ℕ) :
    Option ℤ × (ℕ × ℕ × ℕ) :=
  let d := sqDist r g b p
  match st with
  | (none, _) => (some d, p)
  | (some m, c) => if d < m then (some d, p) else (some m, c)

/-- Squared-distance variant of the matcher, following the performance note
of the specification. -/
def findClosestPaletteColorSqIn (pal : List (ℕ × ℕ × ℕ)) (r g b : ℤ) :
    ℕ × ℕ × ℕ :=
  (pal.foldl (paletteStepSq r g b) (none, (0, 0, 0))).2

/-- Bounds test of the local function distributeError of the source: the
neighbour coordinates must lie inside the rectangle of the image. -/
def inBounds (width height : ℕ) (nx ny : ℤ) : Bool :=
  decide (0 ≤ nx) && decide (nx < (width:ℤ)) && decide (0 ≤ ny)
    && decide (ny < (height:ℤ))

/-- Local function getPixelIndex of the source, at possibly negative
neighbour coordinates; distributeError only evaluates it on coordinates its
bounds test has accepted, so the truncation of toNat is never exercised. -/
def getPixelIndex (width : ℕ) (nx ny : ℤ) : ℕ :=
  ((ny * (width:ℤ) + nx) * 4).toNat

/-- Local function distributeError of the source, for one neighbour offset:
when the neighbour is inside the image, each of its three colour channels
receives the corresponding error component scaled by the factor, through the
clamping store of the Uint8ClampedArray; an out-of-bounds neighbour is
silently skipped. -/
def distributeError (width height x y : ℕ) (error : ℤ × ℤ × ℤ)
    (buf : List ℕ) (dx dy : ℤ) (factor : ℚ) : List ℕ :=
  let nx : ℤ := (x:ℤ) + dx
  let ny : ℤ := (y:ℤ) + dy
  if inBounds width height nx ny then
    let nIndex : ℕ := getPixelIndex width nx ny
    let b1 := buf.set nIndex
      (toUint8Clamp ((buf.getD nIndex 0 : ℚ) + (error.1 : ℚ) * factor))
    let b2 := b1.set (nIndex + 1)
      (toUint8Clamp ((b1.getD (nIndex + 1) 0 : ℚ) + (error.2.1 : ℚ) * factor))
    b2.set (nIndex + 2)
      (toUint8Clamp ((b2.getD (nIndex + 2) 0 : ℚ) + (error.2.2 : ℚ) * factor))
  else buf

/-- The four neighbour offsets and weights of the Floyd-Steinberg kernel, in
the order of the four distributeError calls of the source. -/
def fsKernel : List ((ℤ × ℤ) × ℚ) :=
  [((1, 0), mkRat 7 16), ((-1, 1), mkRat 3 16), ((0, 1), mkRat 5 16),
   ((1, 1), mkRat 1 16)]

/-- Body of the nested scan loop of floydSteinbergDithering for one pixel,
generalised over the palette: read the current colour, quantise it with the
palette matcher, overwrite the pixel through the clamping store, and diffuse
the quantisation error to the four kernel neighbours in order. -/
def processPixelIn (pal : List (ℕ × ℕ × ℕ)) (width height x y : ℕ)
    (buf : List ℕ) : List ℕ :=
  let index := (y * width + x) * 4
  let oldColor : ℕ × ℕ × ℕ :=
    (buf.getD index 0, buf.getD (index + 1) 0, buf.getD (index + 2) 0)
  let newColor :=
    findClosestPaletteColorIn pal (oldColor.1 : ℤ) (oldColor.2.1 : ℤ)
      (oldColor.2.2 : ℤ)
  let written :=
    ((buf.set index (toUint8Clamp (newColor.1 : ℚ))).set (index + 1)
        (toUint8Clamp (newColor.2.1 : ℚ))).set (index + 2)
      (toUint8Clamp (newColor.2.2 : ℚ))
  let error : ℤ × ℤ × ℤ :=
    ((oldColor.1 : ℤ) - (newColor.1 : ℤ),
     (oldColor.2.1 : ℤ) - (newColor.2.1 : ℤ),
     (oldColor.2.2 : ℤ) - (newColor.2.2 : ℤ))
  fsKernel.foldl
    (fun b k => distributeError width height x y error b k.1.1 k.1.2 k.2)
    written

/-- Inner loop of floydSteinbergDithering (iteration over x for one row),
generalised over the palette. -/
def ditherRowIn (pal : List (ℕ × ℕ × ℕ)) (width height y : ℕ)
    (buf : List ℕ) : List ℕ :=
  (List.range width).foldl (fun b x => processPixelIn pal width height x y b) buf

/-- Function floydSteinbergDithering of the source, generalised over the
palette: copy the data of the image into a fresh working buffer and run the
row-major scan on the copy.  The caller's array is left untouched; the
returned list is the data of the fresh ImageData built at the end. -/
def floydSteinbergDitheringIn (pal : List (ℕ × ℕ × ℕ)) (width height : ℕ)
    (data : List ℕ) : List ℕ :=
  let result := data
  (List.range height).foldl (fun b y => ditherRowIn pal width height y b) result

/-- Body of the scan loop for one pixel with the hardcoded PALETTE, exactly
as in the source. -/
def processPixel (width height x y : ℕ) (buf : List ℕ) : List ℕ :=
  processPixelIn PALETTE width height x y buf

/-- Function floydSteinbergDithering of the source with the hardcoded
PALETTE. -/
def floydSteinbergDithering (width height : ℕ) (data : List ℕ) : List ℕ :=
  floydSteinbergDitheringIn PALETTE width height data

/-- The engine with the caller's input array kept explicitly in the state
alongside the working copy: the source allocates result as a copy of data
and every write of the scan targets result, so the translation of the loop
updates only the second component of the state. -/
def floydSteinbergDitheringTracked (pal : List (ℕ × ℕ × ℕ))
    (width height : ℕ) (data : List ℕ) : List ℕ × List ℕ :=
  let st : List ℕ × List ℕ := (data, data)
  (List.range height).foldl
    (fun s y => (s.1, ditherRowIn pal width height y s.2)) st

/-- Sum of the kernel weights whose neighbour offset stays inside the image
for a pixel at the given coordinates: the weight mass actually applied by
the four distributeError calls. -/
def appliedWeight (width height x y : ℕ) : ℚ :=
  ((fsKernel.filter
      (fun k => inBounds width height ((x:ℤ) + k.1.1) ((y:ℤ) + k.1.2))).map
    Prod.snd).sum

/-! Basic lemmas about list stores, the clamping conversion and loops. -/

theorem getD_set_self (l : List ℕ) (i v : ℕ) (h : i < l.length) :
    (l.set i v).getD i 0 = v := by
  simp [List.getD_eq_getElem?_getD, List.getElem?_set_self',
    List.getElem?_eq_getElem h]

theorem getD_set_ne (l : List ℕ) (i j v : ℕ) (h : i ≠ j) :
    (l.set i v).getD j 0 = l.getD j 0 := by
  simp [List.getD_eq_getElem?_getD, List.getElem?_set_ne h]

theorem foldl_range_succ {β : Type} (f : β → ℕ → β) (b : β) (n : ℕ) :
    (List.range (n+1)).foldl f b = f ((List.range n).foldl f b) n := by
  rw [List.range_succ, List.foldl_append]; rfl

theorem toUint8Clamp_le (q : ℚ) : toUint8Clamp q ≤ 255 := by
  unfold toUint8Clamp
  split
  · omega
  split
  · omega
  rename_i h0 h255
  push_neg at h0 h255
  have hfl : ⌊q⌋ < 255 := by
    have := Int.floor_le_floor (le_of_lt h255)
    have h255' : ⌊q⌋ ≤ 255 := by
      calc ⌊q⌋ ≤ ⌊(255:ℚ)⌋ := Int.floor_le_floor (le_of_lt h255)
        _ = 255 := by norm_num
    rcases lt_or_eq_of_le h255' with h | h
    · exact h
    · exfalso
      have : (255:ℚ) ≤ q := by
        calc (255:ℚ) = ((255:ℤ):ℚ) := by norm_num
          _ = ((⌊q⌋:ℤ):ℚ) := by rw [h]
          _ ≤ q := Int.floor_le q
      exact absurd this (not_le.mpr h255)
  have hfn : (⌊q⌋).toNat ≤ 254 := by omega
  split
  · omega
  split
  · omega
  split <;> omega

theorem toUint8Clamp_natCast (n : ℕ) (h : n ≤ 255) :
    toUint8Clamp (n:ℚ) = n := by
  unfold toUint8Clamp
  by_cases h0 : (n:ℚ) ≤ 0
  · have : n = 0 := by exact_mod_cast le_antisymm h0 (by positivity)
    simp [h0, this]
  · rw [if_neg h0]
    by_cases h255 : (255:ℚ) ≤ (n:ℚ)
    · have : (255:ℕ) ≤ n := by exact_mod_cast h255
      have hn : n = 255 := le_antisymm h this
      simp [h255, hn]
    · rw [if_neg h255]
      have hfl : ⌊(n:ℚ)⌋ = (n:ℤ) := by exact_mod_cast Int.floor_natCast n
      rw [hfl]
      have hfrac : (n:ℚ) - ((n:ℤ):ℚ) = 0 := by push_cast; ring
      rw [hfrac]
      norm_num

theorem inBounds_iff (width height : ℕ) (nx ny : ℤ) :
    inBounds width height nx ny = true ↔
      0 ≤ nx ∧ nx < (width:ℤ) ∧ 0 ≤ ny ∧ ny < (height:ℤ) := by
  simp [inBounds, and_assoc]

theorem length_distributeError (width height x y : ℕ) (e : ℤ × ℤ × ℤ)
    (buf : List ℕ) (dx dy : ℤ) (f : ℚ) :
    (distributeError width height x y e buf dx dy f).length = buf.length := by
  simp only [distributeError]
  split <;> simp

theorem length_processPixelIn (pal : List (ℕ × ℕ × ℕ)) (width height x y : ℕ)
    (buf : List ℕ) :
    (processPixelIn pal width height x y buf).length = buf.length := by
  simp only [processPixelIn, fsKernel, List.foldl]
  rw [length_distributeError, length_distributeError, length_distributeError,
    length_distributeError]
  simp

theorem length_ditherRowIn (pal : List (ℕ × ℕ × ℕ)) (width height y : ℕ)
    (buf : List ℕ) :
    (ditherRowIn pal width height y buf).length = buf.length := by
  unfold ditherRowIn
  generalize List.range width = l
  induction l generalizing buf with
  | nil => rfl
  | cons a t ih => simp [List.foldl, ih, length_processPixelIn]

theorem length_floydSteinbergDitheringIn (pal : List (ℕ × ℕ × ℕ))
    (width height : ℕ) (data : List ℕ) :
    (floydSteinbergDitheringIn pal width height data).length = data.length := by
  unfold floydSteinbergDitheringIn
  generalize List.range height = l
  induction l generalizing data with
  | nil => rfl
  | cons a t ih => simp [List.foldl, ih, length_ditherRowIn]

/-! Lemmas about the palette matcher. -/

theorem sqDist_nonneg (r g b : ℤ) (p : ℕ × ℕ × ℕ) : 0 ≤ sqDist r g b p := by
  unfold sqDist
  positivity

theorem sqrt_cast_lt_iff (a b : ℤ) (ha : 0 ≤ a) :
    (Real.sqrt (a:ℝ) < Real.sqrt (b:ℝ)) ↔ a < b := by
  rw [Real.sqrt_lt_sqrt_iff (by exact_mod_cast ha)]
  constructor <;> intro h <;> exact_mod_cast h

/-- Invariant of the scan loop of findClosestPaletteColor: starting from a
candidate c with its distance recorded, the loop returns either c itself,
with every scanned entry at distance at least that of c, or the first entry
of the remaining list that strictly improves on c and on everything scanned
before it, with nothing after it strictly better. -/
theorem paletteScan_core (r g b : ℤ) (t : List (ℕ × ℕ × ℕ)) (c : ℕ × ℕ × ℕ) :
    ∃ m, t.foldl (paletteStep r g b) (some (sqDist r g b c), c)
        = (some (sqDist r g b m), m) ∧
      ((m = c ∧ ∀ p ∈ t, sqDist r g b c ≤ sqDist r g b p) ∨
       (∃ pre post, t = pre ++ m :: post ∧
          sqDist r g b m < sqDist r g b c ∧
          (∀ p ∈ pre, sqDist r g b m < sqDist r g b p) ∧
          (∀ p ∈ post, sqDist r g b m ≤ sqDist r g b p))) := by
  induction t generalizing c with
  | nil => exact ⟨c, rfl, Or.inl ⟨rfl, by simp⟩⟩
  | cons p t ih =>
    rw [List.foldl_cons]
    by_cases hlt : sqDist r g b p < sqDist r g b c
    · have hstep : paletteStep r g b (some (sqDist r g b c), c) p
          = (some (sqDist r g b p), p) := by
        simp only [paletteStep]
        rw [if_pos ((sqrt_cast_lt_iff _ _ (sqDist_nonneg r g b p)).mpr hlt)]
      rw [hstep]
      obtain ⟨m, heq, hdisj⟩ := ih p
      refine ⟨m, heq, Or.inr ?_⟩
      rcases hdisj with ⟨hm, hall⟩ | ⟨pre, post, hteq, hlt2, hpre, hpost⟩
      · subst hm
        exact ⟨[], t, rfl, hlt, by simp, hall⟩
      · refine ⟨p :: pre, post, by rw [hteq]; rfl, lt_trans hlt2 hlt, ?_, hpost⟩
        intro q hq
        rcases List.mem_cons.mp hq with h | h
        · subst h; exact hlt2
        · exact hpre q h
    · have hstep : paletteStep r g b (some (sqDist r g b c), c) p
          = (some (sqDist r g b c), c) := by
        simp only [paletteStep]
        rw [if_neg (fun hc =>
          hlt ((sqrt_cast_lt_iff _ _ (sqDist_nonneg r g b p)).mp hc))]
      rw [hstep]
      obtain ⟨m, heq, hdisj⟩ := ih c
      refine ⟨m, heq, ?_⟩
      rcases hdisj with ⟨hm, hall⟩ | ⟨pre, post, hteq, hlt2, hpre, hpost⟩
      · refine Or.inl ⟨hm, ?_⟩
        intro q hq
        rcases List.mem_cons.mp hq with h | h
        · subst h; exact le_of_not_lt hlt
        · exact hall q h
      · refine Or.inr ⟨p :: pre, post, by rw [hteq]; rfl, hlt2, ?_, hpost⟩
        intro q hq
        rcases List.mem_cons.mp hq with h | h
        · subst h; exact lt_of_lt_of_le hlt2 (le_of_not_lt hlt)
        · exact hpre q h

/-- The matcher returns the first entry of the palette attaining the minimum
distance: the palette splits around the result, every entry is at distance
at least that of the result, and every entry strictly before the result is
strictly farther away. -/
theorem findClosest_first_min (pal : List (ℕ × ℕ × ℕ)) (r g b : ℤ)
    (hpal : pal ≠ []) :
    ∃ pre post, pal = pre ++ (findClosestPaletteColorIn pal r g b) :: post ∧
      (∀ p ∈ pal,
        sqDist r g b (findClosestPaletteColorIn pal r g b) ≤ sqDist r g b p) ∧
      (∀ p ∈ pre,
        sqDist r g b (findClosestPaletteColorIn pal r g b) < sqDist r g b p) := by
  match pal with
  | [] => exact absurd rfl hpal
  | hd :: tl =>
    have hfold : findClosestPaletteColorIn (hd :: tl) r g b
        = (tl.foldl (paletteStep r g b) (some (sqDist r g b hd), hd)).2 := rfl
    obtain ⟨m, heq, hdisj⟩ := paletteScan_core r g b tl hd
    have hres : findClosestPaletteColorIn (hd :: tl) r g b = m := by
      rw [hfold, heq]
    rw [hres]
    rcases hdisj with ⟨hm, hall⟩ | ⟨pre, post, hteq, hlt, hpre, hpost⟩
    · subst hm
      refine ⟨[], tl, rfl, ?_, by simp⟩
      intro q hq
      rcases List.mem_cons.mp hq with h | h
      · subst h; exact le_refl _
      · exact hall q h
    · refine ⟨hd :: pre, post, by rw [hteq]; rfl, ?_, ?_⟩
      · intro q hq
        rw [hteq] at hq
        rcases List.mem_cons.mp hq with h | h
        · subst h; exact le_of_lt hlt
        · rcases List.mem_append.mp h with h2 | h2
          · exact le_of_lt (hpre q h2)
          · rcases List.mem_cons.mp h2 with h3 | h3
            · subst h3; exact le_refl _
            · exact hpost q h3
      · intro q hq
        rcases List.mem_cons.mp hq with h | h
        · subst h; exact hlt
        · exact hpre q h

/-- The matcher returns a palette entry whenever the palette is nonempty. -/
theorem findClosest_mem (pal : List (ℕ × ℕ × ℕ)) (r g b : ℤ)
    (hpal : pal ≠ []) : findClosestPaletteColorIn pal r g b ∈ pal := by
  obtain ⟨pre, post, hdecomp, -, -⟩ := findClosest_first_min pal r g b hpal
  have hmem : findClosestPaletteColorIn pal r g b
      ∈ pre ++ findClosestPaletteColorIn pal r g b :: post :=
    List.mem_append.mpr (Or.inr (List.mem_cons_self _ _))
  rwa [← hdecomp] at hmem

/-- The squared-distance scan agrees with the square-root scan step by step,
for states whose recorded minimum is nonnegative. -/
theorem foldl_sq_eq (r g b : ℤ) (l : List (ℕ × ℕ × ℕ))
    (st : Option ℤ × (ℕ × ℕ × ℕ)) (hst : ∀ m, st.1 = some m → 0 ≤ m) :
    l.foldl (paletteStepSq r g b) st = l.foldl (paletteStep r g b) st := by
  induction l generalizing st with
  | nil => rfl
  | cons p t ih =>
    obtain ⟨o, c⟩ := st
    cases o with
    | none =>
      rw [List.foldl_cons, List.foldl_cons]
      have h1 : paletteStepSq r g b (none, c) p = (some (sqDist r g b p), p) := rfl
      have h2 : paletteStep r g b (none, c) p = (some (sqDist r g b p), p) := rfl
      rw [h1, h2]
      exact ih _ (fun m hm => by
        simp only [Option.some_inj] at hm
        subst hm
        exact sqDist_nonneg r g b p)
    | some m =>
      have hm : 0 ≤ m := hst m rfl
      rw [List.foldl_cons, List.foldl_cons]
      have hsteps : paletteStepSq r g b (some m, c) p
          = paletteStep r g b (some m, c) p := by
        simp only [paletteStepSq, paletteStep]
        by_cases h : sqDist r g b p < m
        · rw [if_pos h,
            if_pos ((sqrt_cast_lt_iff _ _ (sqDist_nonneg r g b p)).mpr h)]
        · rw [if_neg h, if_neg (fun hc =>
            h ((sqrt_cast_lt_iff _ _ (sqDist_nonneg r g b p)).mp hc))]
      rw [hsteps]
      apply ih
      simp only [paletteStep]
      by_cases h : Real.sqrt ((sqDist r g b p : ℤ):ℝ) < Real.sqrt ((m:ℤ):ℝ)
      · rw [if_pos h]
        exact fun m' hm' => by
          simp only [Option.some_inj] at hm'
          subst hm'
          exact sqDist_nonneg r g b p
      · rw [if_neg h]
        exact fun m' hm' => by
          simp only [Option.some_inj] at hm'
          subst hm'
          exact hm

/-! Frame and characterisation lemmas for error diffusion. -/

theorem distributeError_oob (width height x y : ℕ) (e : ℤ × ℤ × ℤ)
    (buf : List ℕ) (dx dy : ℤ) (f : ℚ)
    (hg : inBounds width height ((x:ℤ) + dx) ((y:ℤ) + dy) = false) :
    distributeError width height x y e buf dx dy f = buf := by
  simp only [distributeError, hg]
  rfl

theorem distributeError_getD_ne (width height x y : ℕ) (e : ℤ × ℤ × ℤ)
    (buf : List ℕ) (dx dy : ℤ) (f : ℚ) (p : ℕ)
    (hp : inBounds width height ((x:ℤ) + dx) ((y:ℤ) + dy) = true →
      p ≠ getPixelIndex width ((x:ℤ) + dx) ((y:ℤ) + dy) ∧
      p ≠ getPixelIndex width ((x:ℤ) + dx) ((y:ℤ) + dy) + 1 ∧
      p ≠ getPixelIndex width ((x:ℤ) + dx) ((y:ℤ) + dy) + 2) :
    (distributeError width height x y e buf dx dy f).getD p 0
      = buf.getD p 0 := by
  simp only [distributeError]
  split
  · rename_i hg
    obtain ⟨h0, h1, h2⟩ := hp hg
    rw [getD_set_ne _ _ _ _ (Ne.symm h2), getD_set_ne _ _ _ _ (Ne.symm h1),
      getD_set_ne _ _ _ _ (Ne.symm h0)]
  · rfl

theorem distributeError_getD_hit (width height x y : ℕ) (e : ℤ × ℤ × ℤ)
    (buf : List ℕ) (dx dy : ℤ) (f : ℚ)
    (hg : inBounds width height ((x:ℤ) + dx) ((y:ℤ) + dy) = true)
    (hlen : getPixelIndex width ((x:ℤ) + dx) ((y:ℤ) + dy) + 2 < buf.length) :
    (distributeError width height x y e buf dx dy f).getD
        (getPixelIndex width ((x:ℤ) + dx) ((y:ℤ) + dy)) 0
      = toUint8Clamp
          ((buf.getD (getPixelIndex width ((x:ℤ) + dx) ((y:ℤ) + dy)) 0 : ℚ)
            + (e.1 : ℚ) * f) ∧
    (distributeError width height x y e buf dx dy f).getD
        (getPixelIndex width ((x:ℤ) + dx) ((y:ℤ) + dy) + 1) 0
      = toUint8Clamp
          ((buf.getD (getPixelIndex width ((x:ℤ) + dx) ((y:ℤ) + dy) + 1) 0 : ℚ)
            + (e.2.1 : ℚ) * f) ∧
    (distributeError width height x y e buf dx dy f).getD
        (getPixelIndex width ((x:ℤ) + dx) ((y:ℤ) + dy) + 2) 0
      = toUint8Clamp
          ((buf.getD (getPixelIndex width ((x:ℤ) + dx) ((y:ℤ) + dy) + 2) 0 : ℚ)
            + (e.2.2 : ℚ) * f) := by
  simp only [distributeError, hg, if_true]
  refine ⟨?_, ?_, ?_⟩
  · rw [getD_set_ne _ _ _ _ (by omega), getD_set_ne _ _ _ _ (by omega),
      getD_set_self _ _ _ (by omega)]
  · rw [getD_set_ne _ _ _ _ (by omega),
      getD_set_self _ _ _ (by simp only [List.length_set]; omega),
      getD_set_ne _ _ _ _ (by omega)]
  · rw [getD_set_self _ _ _ (by simp only [List.length_set]; omega),
      getD_set_ne _ _ _ _ (by omega), getD_set_ne _ _ _ _ (by omega)]

theorem getPixelIndex_natCast (width nx ny : ℕ) :
    getPixelIndex width (nx:ℤ) (ny:ℤ) = (ny * width + nx) * 4 := by
  unfold getPixelIndex
  have h : ((ny:ℤ) * (width:ℤ) + (nx:ℤ)) * 4
      = (((ny * width + nx) * 4 : ℕ) : ℤ) := by push_cast; ring
  rw [h, Int.toNat_natCast]

/-- Every in-bounds diffusion target of the four kernel offsets lies at a
pixel strictly after the current pixel in scan order: its base sample index
is at least one whole pixel slot past the base index of the current pixel,
and it is aligned on a pixel slot. -/
theorem kernel_target_lb (width height x y : ℕ) (dx dy : ℤ)
    (hoff : (dx = 1 ∧ dy = 0) ∨ (dy = 1 ∧ -1 ≤ dx ∧ dx ≤ 1)) (hx : x < width)
    (hg : inBounds width height ((x:ℤ) + dx) ((y:ℤ) + dy) = true) :
    (y * width + x) * 4 + 4 ≤ getPixelIndex width ((x:ℤ) + dx) ((y:ℤ) + dy) ∧
    getPixelIndex width ((x:ℤ) + dx) ((y:ℤ) + dy) % 4 = 0 := by
  obtain ⟨hnx0, hnxw, hny0, hnyh⟩ := (inBounds_iff width height _ _).mp hg
  have hmul : (y + 1) * width = y * width + width := by ring
  rcases hoff with ⟨hdx, hdy⟩ | ⟨hdy, hdxl, hdxu⟩
  · subst hdx; subst hdy
    have h1 : (x:ℤ) + 1 = ((x + 1 : ℕ) : ℤ) := by push_cast; ring
    have h2 : (y:ℤ) + 0 = ((y : ℕ) : ℤ) := by ring
    rw [h1, h2, getPixelIndex_natCast]
    omega
  · subst hdy
    have hdx3 : dx = -1 ∨ dx = 0 ∨ dx = 1 := by omega
    have h2 : (y:ℤ) + 1 = ((y + 1 : ℕ) : ℤ) := by push_cast; ring
    rcases hdx3 with h | h | h <;> subst h
    · have hx1 : 1 ≤ x := by omega
      have h1 : (x:ℤ) + (-1) = ((x - 1 : ℕ) : ℤ) := by omega
      rw [h1, h2, getPixelIndex_natCast]
      omega
    · have h1 : (x:ℤ) + 0 = ((x : ℕ) : ℤ) := by ring
      rw [h1, h2, getPixelIndex_natCast]
      omega
    · have h1 : (x:ℤ) + 1 = ((x + 1 : ℕ) : ℤ) := by push_cast; ring
      rw [h1, h2, getPixelIndex_natCast]
      omega

/-- Processing the pixel at coordinates x and y leaves every sample strictly
before the base index of that pixel untouched, and every alpha sample (index
congruent to 3 modulo 4) untouched. -/
theorem processPixelIn_getD_untouched (pal : List (ℕ × ℕ × ℕ))
    (w h x y : ℕ) (buf : List ℕ) (p : ℕ) (hx : x < w)
    (hp : p < (y * w + x) * 4 ∨ p % 4 = 3) :
    (processPixelIn pal w h x y buf).getD p 0 = buf.getD p 0 := by
  have hde : ∀ (E : ℤ × ℤ × ℤ) (b : List ℕ) (dx dy : ℤ) (f : ℚ),
      ((dx = 1 ∧ dy = 0) ∨ (dy = 1 ∧ -1 ≤ dx ∧ dx ≤ 1)) →
      (distributeError w h x y E b dx dy f).getD p 0 = b.getD p 0 := by
    intro E b dx dy f hoff
    apply distributeError_getD_ne
    intro hg
    obtain ⟨hlb, hmod⟩ := kernel_target_lb w h x y dx dy hoff hx hg
    omega
  simp only [processPixelIn, fsKernel, List.foldl]
  rw [hde _ _ 1 1 _ (by omega), hde _ _ 0 1 _ (by omega),
    hde _ _ (-1) 1 _ (by omega), hde _ _ 1 0 _ (by omega),
    getD_set_ne _ _ _ _ (by omega), getD_set_ne _ _ _ _ (by omega),
    getD_set_ne _ _ _ _ (by omega)]

/-- Processing the pixel at coordinates x and y stores at that pixel the
clamped components of the palette colour matched against the colour the
pixel held when it was visited. -/
theorem processPixelIn_getD_own (pal : List (ℕ × ℕ × ℕ))
    (w h x y : ℕ) (buf : List ℕ) (hx : x < w)
    (hlen : (y * w + x) * 4 + 2 < buf.length) :
    (processPixelIn pal w h x y buf).getD ((y * w + x) * 4) 0
      = toUint8Clamp
          ((findClosestPaletteColorIn pal (buf.getD ((y * w + x) * 4) 0 : ℤ)
              (buf.getD ((y * w + x) * 4 + 1) 0 : ℤ)
              (buf.getD ((y * w + x) * 4 + 2) 0 : ℤ)).1 : ℚ) ∧
    (processPixelIn pal w h x y buf).getD ((y * w + x) * 4 + 1) 0
      = toUint8Clamp
          ((findClosestPaletteColorIn pal (buf.getD ((y * w + x) * 4) 0 : ℤ)
              (buf.getD ((y * w + x) * 4 + 1) 0 : ℤ)
              (buf.getD ((y * w + x) * 4 + 2) 0 : ℤ)).2.1 : ℚ) ∧
    (processPixelIn pal w h x y buf).getD ((y * w + x) * 4 + 2) 0
      = toUint8Clamp
          ((findClosestPaletteColorIn pal (buf.getD ((y * w + x) * 4) 0 : ℤ)
              (buf.getD ((y * w + x) * 4 + 1) 0 : ℤ)
              (buf.getD ((y * w + x) * 4 + 2) 0 : ℤ)).2.2 : ℚ) := by
  have hde : ∀ (q : ℕ), q < (y * w + x) * 4 + 4 →
      ∀ (E : ℤ × ℤ × ℤ) (b : List ℕ) (dx dy : ℤ) (f : ℚ),
      ((dx = 1 ∧ dy = 0) ∨ (dy = 1 ∧ -1 ≤ dx ∧ dx ≤ 1)) →
      (distributeError w h x y E b dx dy f).getD q 0 = b.getD q 0 := by
    intro q hq E b dx dy f hoff
    apply distributeError_getD_ne
    intro hg
    obtain ⟨hlb, hmod⟩ := kernel_target_lb w h x y dx dy hoff hx hg
    omega
  refine ⟨?_, ?_, ?_⟩
  · simp only [processPixelIn, fsKernel, List.foldl]
    rw [hde _ (by omega) _ _ 1 1 _ (by omega), hde _ (by omega) _ _ 0 1 _ (by omega),
      hde _ (by omega) _ _ (-1) 1 _ (by omega), hde _ (by omega) _ _ 1 0 _ (by omega),
      getD_set_ne _ _ _ _ (by omega), getD_set_ne _ _ _ _ (by omega),
      getD_set_self _ _ _ (by omega)]
  · simp only [processPixelIn, fsKernel, List.foldl]
    rw [hde _ (by omega) _ _ 1 1 _ (by omega), hde _ (by omega) _ _ 0 1 _ (by omega),
      hde _ (by omega) _ _ (-1) 1 _ (by omega), hde _ (by omega) _ _ 1 0 _ (by omega),
      getD_set_ne _ _ _ _ (by omega),
      getD_set_self _ _ _ (by simp only [List.length_set]; omega)]
  · simp only [processPixelIn, fsKernel, List.foldl]
    rw [hde _ (by omega) _ _ 1 1 _ (by omega), hde _ (by omega) _ _ 0 1 _ (by omega),
      hde _ (by omega) _ _ (-1) 1 _ (by omega), hde _ (by omega) _ _ 1 0 _ (by omega),
      getD_set_self _ _ _ (by simp only [List.length_set]; omega)]

theorem PALETTE_ne_nil : PALETTE ≠ [] := by decide

theorem PALETTE_bounded :
    ∀ q ∈ PALETTE, q.1 ≤ 255 ∧ q.2.1 ≤ 255 ∧ q.2.2 ≤ 255 := by decide

theorem idx_lt_len (w h x y : ℕ) (hx : x < w) (hy : y < h) :
    (y * w + x) * 4 + 2 < w * h * 4 := by
  have ha : (y + 1) * w = y * w + w := by ring
  have hb : (y + 1) * w ≤ h * w := mul_le_mul_right' (by omega) w
  have hc : h * w = w * h := by ring
  omega

theorem foldl_length {α : Type} (f : List ℕ → α → List ℕ)
    (hf : ∀ b a, (f b a).length = b.length) :
    ∀ (l : List α) (b : List ℕ), (l.foldl f b).length = b.length := by
  intro l
  induction l with
  | nil => intro b; rfl
  | cons a t ih => intro b; rw [List.foldl_cons, ih, hf]

/-- After a pixel is processed, the colour triple stored at that pixel is a
palette entry, for any nonempty palette whose channels fit in a byte. -/
theorem processPixelIn_triple_mem (pal : List (ℕ × ℕ × ℕ)) (hpal : pal ≠ [])
    (hbound : ∀ q ∈ pal, q.1 ≤ 255 ∧ q.2.1 ≤ 255 ∧ q.2.2 ≤ 255)
    (w h x y : ℕ) (buf : List ℕ) (hx : x < w)
    (hlen : (y * w + x) * 4 + 2 < buf.length) :
    ((processPixelIn pal w h x y buf).getD ((y * w + x) * 4) 0,
     (processPixelIn pal w h x y buf).getD ((y * w + x) * 4 + 1) 0,
     (processPixelIn pal w h x y buf).getD ((y * w + x) * 4 + 2) 0) ∈ pal := by
  obtain ⟨h0, h1, h2⟩ := processPixelIn_getD_own pal w h x y buf hx hlen
  have hmem := findClosest_mem pal (buf.getD ((y * w + x) * 4) 0 : ℤ)
    (buf.getD ((y * w + x) * 4 + 1) 0 : ℤ)
    (buf.getD ((y * w + x) * 4 + 2) 0 : ℤ) hpal
  obtain ⟨b0, b1, b2⟩ := hbound _ hmem
  rw [h0, h1, h2, toUint8Clamp_natCast _ b0, toUint8Clamp_natCast _ b1,
    toUint8Clamp_natCast _ b2]
  simpa using hmem

/-- A row scan does not modify samples before the base index of the row, nor
any alpha sample. -/
theorem ditherRowIn_getD_untouched (pal : List (ℕ × ℕ × ℕ))
    (w h y : ℕ) (buf : List ℕ) (p : ℕ)
    (hp : p < (y * w) * 4 ∨ p % 4 = 3) :
    (ditherRowIn pal w h y buf).getD p 0 = buf.getD p 0 := by
  have H : ∀ k, k ≤ w →
      ((List.range k).foldl (fun b x => processPixelIn pal w h x y b) buf).getD
        p 0 = buf.getD p 0 := by
    intro k
    induction k with
    | zero => intro _; rfl
    | succ k ih =>
      intro hk1
      rw [foldl_range_succ,
        processPixelIn_getD_untouched pal w h k y _ p (by omega) (by omega)]
      exact ih (by omega)
  exact H w (le_refl w)

/-- After a full row scan, every pixel of that row stores a palette entry. -/
theorem ditherRowIn_triple_mem (pal : List (ℕ × ℕ × ℕ)) (hpal : pal ≠ [])
    (hbound : ∀ q ∈ pal, q.1 ≤ 255 ∧ q.2.1 ≤ 255 ∧ q.2.2 ≤ 255)
    (w h y : ℕ) (buf : List ℕ) (hlen : buf.length = w * h * 4) (hy : y < h) :
    ∀ x, x < w →
      ((ditherRowIn pal w h y buf).getD ((y * w + x) * 4) 0,
       (ditherRowIn pal w h y buf).getD ((y * w + x) * 4 + 1) 0,
       (ditherRowIn pal w h y buf).getD ((y * w + x) * 4 + 2) 0) ∈ pal := by
  have H : ∀ k, k ≤ w → ∀ x, x < k →
      (((List.range k).foldl (fun b x => processPixelIn pal w h x y b) buf).getD
          ((y * w + x) * 4) 0,
       ((List.range k).foldl (fun b x => processPixelIn pal w h x y b) buf).getD
          ((y * w + x) * 4 + 1) 0,
       ((List.range k).foldl (fun b x => processPixelIn pal w h x y b) buf).getD
          ((y * w + x) * 4 + 2) 0) ∈ pal := by
    intro k
    induction k with
    | zero => intro _ x hx; omega
    | succ k ih =>
      intro hk1 x hx
      rcases Nat.lt_or_ge x k with hxk | hxk
      · rw [foldl_range_succ,
          processPixelIn_getD_untouched pal w h k y _ _ (by omega) (by omega),
          processPixelIn_getD_untouched pal w h k y _ _ (by omega) (by omega),
          processPixelIn_getD_untouched pal w h k y _ _ (by omega) (by omega)]
        exact ih (by omega) x hxk
      · have hxeq : x = k := by omega
        subst hxeq
        rw [foldl_range_succ]
        apply processPixelIn_triple_mem pal hpal hbound w h x y _ (by omega)
        rw [foldl_length (fun b x => processPixelIn pal w h x y b)
          (fun b a => length_processPixelIn pal w h a y b), hlen]
        exact idx_lt_len w h x y (by omega) hy
  exact H w (le_refl w) 

/-- After the full scan, every pixel of the image stores a palette entry,
for any nonempty palette whose channels fit in a byte. -/
theorem floydSteinbergDitheringIn_triple_mem (pal : List (ℕ × ℕ × ℕ))
    (hpal : pal ≠ [])
    (hbound : ∀ q ∈ pal, q.1 ≤ 255 ∧ q.2.1 ≤ 255 ∧ q.2.2 ≤ 255)
    (w h : ℕ) (data : List ℕ) (hlen : data.length = w * h * 4) :
    ∀ x y, x < w → y < h →
      ((floydSteinbergDitheringIn pal w h data).getD ((y * w + x) * 4) 0,
       (floydSteinbergDitheringIn pal w h data).getD ((y * w + x) * 4 + 1) 0,
       (floydSteinbergDitheringIn pal w h data).getD ((y * w + x) * 4 + 2) 0)
        ∈ pal := by
  have H : ∀ k, k ≤ h → ∀ x y, x < w → y < k →
      (((List.range k).foldl (fun b y => ditherRowIn pal w h y b) data).getD
          ((y * w + x) * 4) 0,
       ((List.range k).foldl (fun b y => ditherRowIn pal w h y b) data).getD
          ((y * w + x) * 4 + 1) 0,
       ((List.range k).foldl (fun b y => ditherRowIn pal w h y b) data).getD
          ((y * w + x) * 4 + 2) 0) ∈ pal := by
    intro k
    induction k with
    | zero => intro _ x y hx hy; omega
    | succ k ih =>
      intro hk1 x y hx hy
      have hmul : (y + 1) * w = y * w + w := by ring
      rcases Nat.lt_or_ge y k with hyk | hyk
      · rw [foldl_range_succ,
          ditherRowIn_getD_untouched pal w h k _ _ (by
            left
            have hyk1 : (y + 1) * w ≤ k * w := mul_le_mul_right' (by omega) w
            omega),
          ditherRowIn_getD_untouched pal w h k _ _ (by
            left
            have hyk1 : (y + 1) * w ≤ k * w := mul_le_mul_right' (by omega) w
            omega),
          ditherRowIn_getD_untouched pal w h k _ _ (by
            left
            have hyk1 : (y + 1) * w ≤ k * w := mul_le_mul_right' (by omega) w
            omega)]
        exact ih (by omega) x y hx hyk
      · have hyeq : y = k := by omega
        subst hyeq
        rw [foldl_range_succ]
        apply ditherRowIn_triple_mem pal hpal hbound w h y _ ?_ (by omega) x hx
        rw [foldl_length (fun b y => ditherRowIn pal w h y b)
          (fun b a => length_ditherRowIn pal w h a b), hlen]
  exact H h (le_refl h)

/-- The full scan does not modify any alpha sample. -/
theorem floydSteinbergDitheringIn_alpha (pal : List (ℕ × ℕ × ℕ))
    (w h : ℕ) (data : List ℕ) (p : ℕ) (hp : p % 4 = 3) :
    (floydSteinbergDitheringIn pal w h data).getD p 0 = data.getD p 0 := by
  have H : ∀ k,
      ((List.range k).foldl (fun b y => ditherRowIn pal w h y b) data).getD
        p 0 = data.getD p 0 := by
    intro k
    induction k with
    | zero => rfl
    | succ k ih =>
      rw [foldl_range_succ,
        ditherRowIn_getD_untouched pal w h k _ p (Or.inr hp)]
      exact ih
  exact H h

/-! Boundedness of the working buffer: every store clamps to a byte. -/

theorem set_clamped_bound (l : List ℕ) (i : ℕ) (q : ℚ)
    (h : ∀ v ∈ l, v ≤ 255) : ∀ v ∈ l.set i (toUint8Clamp q), v ≤ 255 := by
  intro v hv
  rcases List.mem_or_eq_of_mem_set hv with h1 | h1
  · exact h v h1
  · rw [h1]; exact toUint8Clamp_le q

theorem distributeError_bound (width height x y : ℕ) (e : ℤ × ℤ × ℤ)
    (buf : List ℕ) (dx dy : ℤ) (f : ℚ) (h : ∀ v ∈ buf, v ≤ 255) :
    ∀ v ∈ distributeError width height x y e buf dx dy f, v ≤ 255 := by
  simp only [distributeError]
  split
  · exact set_clamped_bound _ _ _ (set_clamped_bound _ _ _
      (set_clamped_bound _ _ _ h))
  · exact h

theorem processPixelIn_bound (pal : List (ℕ × ℕ × ℕ)) (width height x y : ℕ)
    (buf : List ℕ) (h : ∀ v ∈ buf, v ≤ 255) :
    ∀ v ∈ processPixelIn pal width height x y buf, v ≤ 255 := by
  simp only [processPixelIn, fsKernel, List.foldl]
  apply distributeError_bound
  apply distributeError_bound
  apply distributeError_bound
  apply distributeError_bound
  apply set_clamped_bound
  apply set_clamped_bound
  apply set_clamped_bound
  exact h

theorem foldl_bound {α : Type} (f : List ℕ → α → List ℕ)
    (hf : ∀ b a, (∀ v ∈ b, v ≤ 255) → ∀ v ∈ f b a, v ≤ 255) :
    ∀ (l : List α) (b : List ℕ), (∀ v ∈ b, v ≤ 255) →
      ∀ v ∈ l.foldl f b, v ≤ 255 := by
  intro l
  induction l with
  | nil => intro b hb; exact hb
  | cons a t ih => intro b hb; rw [List.foldl_cons]; exact ih _ (hf b a hb)

theorem ditherRowIn_bound (pal : List (ℕ × ℕ × ℕ)) (width height y : ℕ)
    (buf : List ℕ) (h : ∀ v ∈ buf, v ≤ 255) :
    ∀ v ∈ ditherRowIn pal width height y buf, v ≤ 255 :=
  foldl_bound _ (fun b a hb => processPixelIn_bound pal width height a y b hb)
    (List.range width) buf h

theorem floydSteinbergDitheringIn_bound (pal : List (ℕ × ℕ × ℕ))
    (width height : ℕ) (data : List ℕ) (h : ∀ v ∈ data, v ≤ 255) :
    ∀ v ∈ floydSteinbergDitheringIn pal width height data, v ≤ 255 :=
  foldl_bound _ (fun b a hb => ditherRowIn_bound pal width height a b hb)
    (List.range height) data h

/-! Claim theorems. -/

/-- C1: for every well-sized input buffer, every pixel of the output of the
dithering engine stores a colour triple that is bit-for-bit an entry of the
palette; finalized pixels are never overwritten afterwards, since diffusion
only targets pixels strictly later in scan order. -/
theorem C1_palette_membership (w h : ℕ) (data : List ℕ)
    (hlen : data.length = w * h * 4) (x y : ℕ) (hx : x < w) (hy : y < h) :
    ((floydSteinbergDithering w h data).getD ((y * w + x) * 4) 0,
     (floydSteinbergDithering w h data).getD ((y * w + x) * 4 + 1) 0,
     (floydSteinbergDithering w h data).getD ((y * w + x) * 4 + 2) 0)
      ∈ PALETTE :=
  floydSteinbergDitheringIn_triple_mem PALETTE PALETTE_ne_nil PALETTE_bounded
    w h data hlen x y hx hy

theorem C1_palette_membership_witness :
    ((floydSteinbergDithering 1 1 [200, 200, 200, 7]).getD ((0 * 1 + 0) * 4) 0,
     (floydSteinbergDithering 1 1 [200, 200, 200, 7]).getD
        ((0 * 1 + 0) * 4 + 1) 0,
     (floydSteinbergDithering 1 1 [200, 200, 200, 7]).getD
        ((0 * 1 + 0) * 4 + 2) 0) ∈ PALETTE :=
  C1_palette_membership 1 1 [200, 200, 200, 7] rfl 0 0 (by decide) (by decide)

/-- C2 counterexample: diffusion writes are clamped mid-pass by the
Uint8ClampedArray store.  For the first input the exact error-adjusted value
of the unvisited neighbour is negative, yet the stored value is 0; for the
second it exceeds 255, yet the stored value is 255.  The unvisited neighbour
never holds a value outside the byte range. -/
theorem C2_counterexample :
    (processPixel 2 1 0 0 [128, 128, 0, 255, 10, 10, 10, 255]).getD 4 0 = 0 ∧
    ((10:ℚ) + (-127) * (mkRat 7 16) < 0) ∧
    (processPixel 2 1 0 0 [30, 30, 30, 255, 250, 250, 250, 255]).getD 4 0
      = 255 ∧
    ((255:ℚ) < 250 + 30 * (mkRat 7 16)) ∧
    ((mkRat 7 16 : ℚ) = 7 / 16) :=
  ⟨(of_decide_eq_true (by with_unfolding_all rfl) :
      (processPixel 2 1 0 0 [128, 128, 0, 255, 10, 10, 10, 255]).getD 4 0 = 0),
   of_decide_eq_true (by with_unfolding_all rfl),
   of_decide_eq_true (by with_unfolding_all rfl),
   of_decide_eq_true (by with_unfolding_all rfl),
   by norm_num [Rat.mkRat_eq_div]⟩

/-- C2 amended: channel values written into the working buffer ARE clamped
to the byte range at every mid-pass store, because the working buffer is a
Uint8ClampedArray; no stored sample is ever negative (the samples are
naturals) or above 255. -/
theorem C2_amended_clamped (w h : ℕ) (data : List ℕ)
    (hdata : ∀ v ∈ data, v ≤ 255) :
    ∀ v ∈ floydSteinbergDithering w h data, v ≤ 255 :=
  floydSteinbergDitheringIn_bound PALETTE w h data hdata

theorem C2_amended_clamped_witness :
    (floydSteinbergDithering 2 1 [30, 30, 30, 255, 250, 250, 250, 255]).getD
        4 0 ≤ 255 :=
  C2_amended_clamped 2 1 [30, 30, 30, 255, 250, 250, 250, 255] (by decide)
    ((floydSteinbergDithering 2 1 [30, 30, 30, 255, 250, 250, 250, 255]).getD
      4 0)
    (of_decide_eq_true (by with_unfolding_all rfl))

/-- C4: for every input colour and nonempty palette the matcher returns the
entry with smallest Euclidean distance, and on exact ties the entry earliest
in palette order: the palette splits as pre ++ result :: post where every
entry is at distance no smaller than the result and every entry of pre is
strictly farther; the distance order is stated both on the squared
distances and on their square roots. -/
theorem C4_matcher_first_min (pal : List (ℕ × ℕ × ℕ)) (r g b : ℤ)
    (hpal : pal ≠ []) :
    ∃ pre post, pal = pre ++ (findClosestPaletteColorIn pal r g b) :: post ∧
      (∀ p ∈ pal,
        sqDist r g b (findClosestPaletteColorIn pal r g b) ≤ sqDist r g b p) ∧
      (∀ p ∈ pre,
        sqDist r g b (findClosestPaletteColorIn pal r g b) < sqDist r g b p) ∧
      (∀ p ∈ pal,
        Real.sqrt ((sqDist r g b (findClosestPaletteColorIn pal r g b) : ℤ) : ℝ)
          ≤ Real.sqrt ((sqDist r g b p : ℤ) : ℝ)) ∧
      (∀ p ∈ pre,
        Real.sqrt ((sqDist r g b (findClosestPaletteColorIn pal r g b) : ℤ) : ℝ)
          < Real.sqrt ((sqDist r g b p : ℤ) : ℝ)) := by
  obtain ⟨pre, post, hdecomp, hle, hlt⟩ := findClosest_first_min pal r g b hpal
  refine ⟨pre, post, hdecomp, hle, hlt, ?_, ?_⟩
  · intro p hp
    exact Real.sqrt_le_sqrt (by exact_mod_cast hle p hp)
  · intro p hp
    exact Real.sqrt_lt_sqrt
      (by exact_mod_cast sqDist_nonneg r g b (findClosestPaletteColorIn pal r g b))
      (by exact_mod_cast hlt p hp)

theorem C4_matcher_first_min_witness :
    PALETTE ≠ [] ∧
    (∃ pre post,
      PALETTE = pre ++ (findClosestPaletteColorIn PALETTE 128 128 128) :: post ∧
      (∀ p ∈ PALETTE, sqDist 128 128 128
          (findClosestPaletteColorIn PALETTE 128 128 128) ≤ sqDist 128 128 128 p) ∧
      (∀ p ∈ pre, sqDist 128 128 128
          (findClosestPaletteColorIn PALETTE 128 128 128) < sqDist 128 128 128 p) ∧
      (∀ p ∈ PALETTE,
        Real.sqrt ((sqDist 128 128 128
            (findClosestPaletteColorIn PALETTE 128 128 128) : ℤ) : ℝ)
          ≤ Real.sqrt ((sqDist 128 128 128 p : ℤ) : ℝ)) ∧
      (∀ p ∈ pre,
        Real.sqrt ((sqDist 128 128 128
            (findClosestPaletteColorIn PALETTE 128 128 128) : ℤ) : ℝ)
          < Real.sqrt ((sqDist 128 128 128 p : ℤ) : ℝ))) :=
  ⟨by decide, C4_matcher_first_min PALETTE 128 128 128 (by decide)⟩

/-- C7: the alpha channel bypasses quantisation and diffusion: every sample
at an index congruent to 3 modulo 4 is unchanged by the engine. -/
theorem C7_alpha_passthrough (w h : ℕ) (data : List ℕ) (p : ℕ)
    (hp : p % 4 = 3) :
    (floydSteinbergDithering w h data).getD p 0 = data.getD p 0 :=
  floydSteinbergDitheringIn_alpha PALETTE w h data p hp

theorem C7_alpha_passthrough_witness :
    (floydSteinbergDithering 2 1 [1, 2, 3, 9, 4, 5, 6, 17]).getD 7 0
      = [1, 2, 3, 9, 4, 5, 6, 17].getD 7 0 :=
  C7_alpha_passthrough 2 1 [1, 2, 3, 9, 4, 5, 6, 17] 7 (by decide)

/-- C8: the engine is deterministic: two runs on equal inputs give equal
outputs; the embedding of the scan is a pure function of the buffer, the
dimensions and the palette. -/
theorem C8_determinism (w h : ℕ) (d1 d2 : List ℕ) (heq : d1 = d2) :
    floydSteinbergDithering w h d1 = floydSteinbergDithering w h d2 := by
  rw [heq]

theorem C8_determinism_witness :
    floydSteinbergDithering 2 1 [128, 128, 0, 255, 10, 10, 10, 255]
      = floydSteinbergDithering 2 1 [128, 128, 0, 255, 10, 10, 10, 255] :=
  C8_determinism 2 1 [128, 128, 0, 255, 10, 10, 10, 255]
    [128, 128, 0, 255, 10, 10, 10, 255] rfl

/-- C9: the squared-distance variant of the matcher agrees with the
implemented square-root matcher on every input colour and every palette,
ties included: the square root is strictly monotone on the nonnegative
radicands, so both scans make identical choices at every step. -/
theorem C9_squared_matcher_agrees (pal : List (ℕ × ℕ × ℕ)) (r g b : ℤ) :
    findClosestPaletteColorSqIn pal r g b = findClosestPaletteColorIn pal r g b := by
  unfold findClosestPaletteColorSqIn findClosestPaletteColorIn
  rw [foldl_sq_eq r g b pal (none, (0, 0, 0)) (fun m hm => by cases hm)]

/-- C10: the engine does not mutate its input: the source copies the data
into a fresh working buffer and every write of the scan targets the copy.
In the embedding that keeps the caller's array in the state, the input
component is returned unchanged while the copy carries the result. -/
theorem C10_input_unchanged (w h : ℕ) (data : List ℕ) :
    (floydSteinbergDitheringTracked PALETTE w h data).1 = data ∧
    (floydSteinbergDitheringTracked PALETTE w h data).2
      = floydSteinbergDithering w h data := by
  have H : ∀ (l : List ℕ) (s : List ℕ × List ℕ),
      (l.foldl (fun s y => (s.1, ditherRowIn PALETTE w h y s.2)) s)
        = (s.1, l.foldl (fun b y => ditherRowIn PALETTE w h y b) s.2) := by
    intro l
    induction l with
    | nil => intro s; rfl
    | cons a t ih => intro s; rw [List.foldl_cons, List.foldl_cons, ih]
  unfold floydSteinbergDitheringTracked floydSteinbergDithering
    floydSteinbergDitheringIn
  rw [H]
  exact ⟨rfl, rfl⟩

/-- C5 counterexample: with the scenario palette of black and white, the
input gray (128,128,128) is NOT equidistant from the two entries: its
squared distance to white is 3 times 127 squared, strictly smaller than the
3 times 128 squared to black, so the first pixel quantises to white, not to
black as the claim asserts via the tie-break rule. -/
theorem C5_counterexample :
    findClosestPaletteColorIn [(0, 0, 0), (255, 255, 255)] 128 128 128
      = (255, 255, 255) ∧
    sqDist 128 128 128 (255, 255, 255) < sqDist 128 128 128 (0, 0, 0) :=
  of_decide_eq_true (by with_unfolding_all rfl)

/-- C5 amended: in the 2 by 1 scenario the first pixel is strictly closer
to white and quantises to white; its error of minus 127 per channel reaches
the unvisited pixel (1,0) scaled by 7/16 through the clamping store (the
stored value becomes 72), and that pixel is then quantised on the adjusted
value, giving black. -/
theorem C5_amended_scenario :
    findClosestPaletteColorIn [(0, 0, 0), (255, 255, 255)] 128 128 128
      = (255, 255, 255) ∧
    sqDist 128 128 128 (255, 255, 255) < sqDist 128 128 128 (0, 0, 0) ∧
    (processPixelIn [(0, 0, 0), (255, 255, 255)] 2 1 0 0
        [128, 128, 128, 255, 128, 128, 128, 255]).getD 4 0
      = toUint8Clamp ((128 : ℚ) + (128 - 255) * (mkRat 7 16)) ∧
    (processPixelIn [(0, 0, 0), (255, 255, 255)] 2 1 0 0
        [128, 128, 128, 255, 128, 128, 128, 255]).getD 4 0 = 72 ∧
    findClosestPaletteColorIn [(0, 0, 0), (255, 255, 255)] 72 72 72
      = (0, 0, 0) ∧
    floydSteinbergDitheringIn [(0, 0, 0), (255, 255, 255)] 2 1
        [128, 128, 128, 255, 128, 128, 128, 255]
      = [255, 255, 255, 255, 0, 0, 0, 255] ∧
    ((mkRat 7 16 : ℚ) = 7 / 16) :=
  ⟨of_decide_eq_true (by with_unfolding_all rfl),
   of_decide_eq_true (by with_unfolding_all rfl),
   of_decide_eq_true (by with_unfolding_all rfl),
   of_decide_eq_true (by with_unfolding_all rfl),
   of_decide_eq_true (by with_unfolding_all rfl),
   of_decide_eq_true (by with_unfolding_all rfl),
   by norm_num [Rat.mkRat_eq_div]⟩

/-- C6 counterexample: the code contains no empty-palette check and no
error channel.  Called with an empty palette, the matcher silently returns
its initialiser (0,0,0), which is not a member of the empty palette, and
the engine runs the whole scan without any failure, painting the image with
the initialiser colour. -/
theorem C6_counterexample :
    findClosestPaletteColorIn [] 12 34 56 = (0, 0, 0) ∧
    findClosestPaletteColorIn [] 12 34 56 ∉ ([] : List (ℕ × ℕ × ℕ)) ∧
    floydSteinbergDitheringIn [] 1 1 [5, 5, 5, 9] = [0, 0, 0, 9] :=
  of_decide_eq_true (by with_unfolding_all rfl)

/-- C6 amended: the palette of the program is a hardcoded nonempty constant
of eight entries, so the empty-palette precondition cannot arise in the
program; no ConfigurationError mechanism exists, and on an empty palette
the matcher does not fail but returns the initial colour (0,0,0) for every
input. -/
theorem C6_amended_no_check :
    PALETTE.length = 8 ∧ PALETTE ≠ [] ∧
    (∀ r g b : ℤ, findClosestPaletteColorIn [] r g b = (0, 0, 0)) ∧
    (∀ r g b : ℤ,
      findClosestPaletteColor r g b = findClosestPaletteColorIn PALETTE r g b) :=
  ⟨rfl, by decide, fun r g b => rfl, fun r g b => rfl⟩

/-! Lemmas for the applied diffusion weight of a pixel. -/

theorem filter_kernel_sum (p : (ℤ × ℤ) × ℚ → Bool) :
    ((fsKernel.filter p).map Prod.snd).sum
      = (if p ((1, 0), mkRat 7 16) = true then (mkRat 7 16 : ℚ) else 0)
      + (if p ((-1, 1), mkRat 3 16) = true then (mkRat 3 16 : ℚ) else 0)
      + (if p ((0, 1), mkRat 5 16) = true then (mkRat 5 16 : ℚ) else 0)
      + (if p ((1, 1), mkRat 1 16) = true then (mkRat 1 16 : ℚ) else 0) := by
  cases hp1 : p ((1, 0), mkRat 7 16) <;>
  cases hp2 : p ((-1, 1), mkRat 3 16) <;>
  cases hp3 : p ((0, 1), mkRat 5 16) <;>
  cases hp4 : p ((1, 1), mkRat 1 16) <;>
  simp only [fsKernel, List.filter_cons, List.filter_nil, hp1, hp2, hp3, hp4,
    eq_self_iff_true, if_true, Bool.false_eq_true, if_false, List.map_cons,
    List.map_nil, List.sum_cons, List.sum_nil, add_zero, zero_add] <;>
  first
  | rfl
  | ring

theorem appliedWeight_interior (w h x y : ℕ) (hx1 : 1 ≤ x) (hxw : x + 1 < w)
    (hyh : y + 1 < h) : appliedWeight w h x y = 1 := by
  have hg1 : inBounds w h ((x:ℤ) + 1) ((y:ℤ) + 0) = true :=
    (inBounds_iff w h _ _).mpr ⟨by omega, by omega, by omega, by omega⟩
  have hg2 : inBounds w h ((x:ℤ) + (-1)) ((y:ℤ) + 1) = true :=
    (inBounds_iff w h _ _).mpr ⟨by omega, by omega, by omega, by omega⟩
  have hg3 : inBounds w h ((x:ℤ) + 0) ((y:ℤ) + 1) = true :=
    (inBounds_iff w h _ _).mpr ⟨by omega, by omega, by omega, by omega⟩
  have hg4 : inBounds w h ((x:ℤ) + 1) ((y:ℤ) + 1) = true :=
    (inBounds_iff w h _ _).mpr ⟨by omega, by omega, by omega, by omega⟩
  rw [appliedWeight, filter_kernel_sum]
  simp only [hg1, hg2, hg3, hg4, eq_self_iff_true, if_true]
  exact of_decide_eq_true (by with_unfolding_all rfl)

theorem appliedWeight_edge (w h x y : ℕ)
    (hedge : x = 0 ∨ x + 1 = w ∨ y + 1 = h) :
    appliedWeight w h x y < 1 := by
  rw [appliedWeight, filter_kernel_sum]
  rcases hedge with he | he | he
  · have hg2 : inBounds w h ((x:ℤ) + (-1)) ((y:ℤ) + 1) = false :=
      Bool.eq_false_iff.mpr (fun hc => by
        obtain ⟨hc1, hc2, hc3, hc4⟩ := (inBounds_iff w h _ _).mp hc
        omega)
    simp only [hg2, Bool.false_eq_true, if_false]
    split_ifs <;> exact of_decide_eq_true (by with_unfolding_all rfl)
  · have hg1 : inBounds w h ((x:ℤ) + 1) ((y:ℤ) + 0) = false :=
      Bool.eq_false_iff.mpr (fun hc => by
        obtain ⟨hc1, hc2, hc3, hc4⟩ := (inBounds_iff w h _ _).mp hc
        omega)
    have hg4 : inBounds w h ((x:ℤ) + 1) ((y:ℤ) + 1) = false :=
      Bool.eq_false_iff.mpr (fun hc => by
        obtain ⟨hc1, hc2, hc3, hc4⟩ := (inBounds_iff w h _ _).mp hc
        omega)
    simp only [hg1, hg4, Bool.false_eq_true, if_false]
    split_ifs <;> exact of_decide_eq_true (by with_unfolding_all rfl)
  · have hg2 : inBounds w h ((x:ℤ) + (-1)) ((y:ℤ) + 1) = false :=
      Bool.eq_false_iff.mpr (fun hc => by
        obtain ⟨hc1, hc2, hc3, hc4⟩ := (inBounds_iff w h _ _).mp hc
        omega)
    have hg3 : inBounds w h ((x:ℤ) + 0) ((y:ℤ) + 1) = false :=
      Bool.eq_false_iff.mpr (fun hc => by
        obtain ⟨hc1, hc2, hc3, hc4⟩ := (inBounds_iff w h _ _).mp hc
        omega)
    have hg4 : inBounds w h ((x:ℤ) + 1) ((y:ℤ) + 1) = false :=
      Bool.eq_false_iff.mpr (fun hc => by
        obtain ⟨hc1, hc2, hc3, hc4⟩ := (inBounds_iff w h _ _).mp hc
        omega)
    simp only [hg2, hg3, hg4, Bool.false_eq_true, if_false]
    split_ifs <;> exact of_decide_eq_true (by with_unfolding_all rfl)

/-- Effect of processing a pixel on its east neighbour, when in bounds: each channel receives the corresponding error component weighted by 7/16 through the clamping store. -/
theorem processPixelIn_east (pal : List (ℕ × ℕ × ℕ)) (w h x y : ℕ)
    (buf : List ℕ) (hlen : buf.length = w * h * 4) (_hx : x < w) (hy : y < h)
    (hg : inBounds w h ((x:ℤ) + 1) ((y:ℤ) + 0) = true) :
    (processPixelIn pal w h x y buf).getD
        (getPixelIndex w ((x:ℤ) + 1) ((y:ℤ) + 0)) 0
      = toUint8Clamp
          ((buf.getD (getPixelIndex w ((x:ℤ) + 1) ((y:ℤ) + 0)) 0 : ℚ)
            + (((buf.getD ((y * w + x) * 4) 0 : ℤ)
                - ((findClosestPaletteColorIn pal
                      (buf.getD ((y * w + x) * 4) 0 : ℤ)
                      (buf.getD ((y * w + x) * 4 + 1) 0 : ℤ)
                      (buf.getD ((y * w + x) * 4 + 2) 0 : ℤ)).1 : ℤ)) : ℚ)
              * mkRat 7 16) ∧
    (processPixelIn pal w h x y buf).getD
        (getPixelIndex w ((x:ℤ) + 1) ((y:ℤ) + 0) + 1) 0
      = toUint8Clamp
          ((buf.getD (getPixelIndex w ((x:ℤ) + 1) ((y:ℤ) + 0) + 1) 0 : ℚ)
            + (((buf.getD ((y * w + x) * 4 + 1) 0 : ℤ)
                - ((findClosestPaletteColorIn pal
                      (buf.getD ((y * w + x) * 4) 0 : ℤ)
                      (buf.getD ((y * w + x) * 4 + 1) 0 : ℤ)
                      (buf.getD ((y * w + x) * 4 + 2) 0 : ℤ)).2.1 : ℤ)) : ℚ)
              * mkRat 7 16) ∧
    (processPixelIn pal w h x y buf).getD
        (getPixelIndex w ((x:ℤ) + 1) ((y:ℤ) + 0) + 2) 0
      = toUint8Clamp
          ((buf.getD (getPixelIndex w ((x:ℤ) + 1) ((y:ℤ) + 0) + 2) 0 : ℚ)
            + (((buf.getD ((y * w + x) * 4 + 2) 0 : ℤ)
                - ((findClosestPaletteColorIn pal
                      (buf.getD ((y * w + x) * 4) 0 : ℤ)
                      (buf.getD ((y * w + x) * 4 + 1) 0 : ℤ)
                      (buf.getD ((y * w + x) * 4 + 2) 0 : ℤ)).2.2 : ℤ)) : ℚ)
              * mkRat 7 16) := by
  obtain ⟨hb0, hb1, hb2, hb3⟩ := (inBounds_iff w h _ _).mp hg
  have hxw : x + 1 < w := by omega
  have hT : getPixelIndex w ((x:ℤ) + 1) ((y:ℤ) + 0) = (y * w + (x + 1)) * 4 := by
    rw [show (x:ℤ) + 1 = ((x + 1 : ℕ) : ℤ) by omega,
      show (y:ℤ) + 0 = ((y : ℕ) : ℤ) by omega, getPixelIndex_natCast]
  have hmul : (y + 1) * w = y * w + w := by ring
  have hne4 : ∀ (E : ℤ × ℤ × ℤ) (b : List ℕ) (f : ℚ) (p : ℕ),
      (p = getPixelIndex w ((x:ℤ) + 1) ((y:ℤ) + 0) ∨
       p = getPixelIndex w ((x:ℤ) + 1) ((y:ℤ) + 0) + 1 ∨
       p = getPixelIndex w ((x:ℤ) + 1) ((y:ℤ) + 0) + 2) →
      (distributeError w h x y E b 1 1 f).getD p 0 = b.getD p 0 := by
    intro E b f p hp
    apply distributeError_getD_ne
    intro hgo
    obtain ⟨hc0, hc1, hc2, hc3⟩ := (inBounds_iff w h _ _).mp hgo
    have hTo : getPixelIndex w ((x:ℤ) + 1) ((y:ℤ) + 1)
        = ((y + 1) * w + (x + 1)) * 4 := by
      rw [show (x:ℤ) + 1 = ((x + 1 : ℕ) : ℤ) by omega,
        show (y:ℤ) + 1 = ((y + 1 : ℕ) : ℤ) by omega,
        getPixelIndex_natCast]
    rw [hTo]
    rw [hT] at hp
    omega
  have hne3 : ∀ (E : ℤ × ℤ × ℤ) (b : List ℕ) (f : ℚ) (p : ℕ),
      (p = getPixelIndex w ((x:ℤ) + 1) ((y:ℤ) + 0) ∨
       p = getPixelIndex w ((x:ℤ) + 1) ((y:ℤ) + 0) + 1 ∨
       p = getPixelIndex w ((x:ℤ) + 1) ((y:ℤ) + 0) + 2) →
      (distributeError w h x y E b 0 1 f).getD p 0 = b.getD p 0 := by
    intro E b f p hp
    apply distributeError_getD_ne
    intro hgo
    obtain ⟨hc0, hc1, hc2, hc3⟩ := (inBounds_iff w h _ _).mp hgo
    have hTo : getPixelIndex w ((x:ℤ) + 0) ((y:ℤ) + 1)
        = ((y + 1) * w + (x)) * 4 := by
      rw [show (x:ℤ) + 0 = ((x : ℕ) : ℤ) by omega,
        show (y:ℤ) + 1 = ((y + 1 : ℕ) : ℤ) by omega,
        getPixelIndex_natCast]
    rw [hTo]
    rw [hT] at hp
    omega
  have hne2 : ∀ (E : ℤ × ℤ × ℤ) (b : List ℕ) (f : ℚ) (p : ℕ),
      (p = getPixelIndex w ((x:ℤ) + 1) ((y:ℤ) + 0) ∨
       p = getPixelIndex w ((x:ℤ) + 1) ((y:ℤ) + 0) + 1 ∨
       p = getPixelIndex w ((x:ℤ) + 1) ((y:ℤ) + 0) + 2) →
      (distributeError w h x y E b (-1) 1 f).getD p 0 = b.getD p 0 := by
    intro E b f p hp
    apply distributeError_getD_ne
    intro hgo
    obtain ⟨hc0, hc1, hc2, hc3⟩ := (inBounds_iff w h _ _).mp hgo
    have hx1 : 1 ≤ x := by omega
    have hTo : getPixelIndex w ((x:ℤ) + (-1)) ((y:ℤ) + 1)
        = ((y + 1) * w + (x - 1)) * 4 := by
      rw [show (x:ℤ) + (-1) = ((x - 1 : ℕ) : ℤ) by omega,
        show (y:ℤ) + 1 = ((y + 1 : ℕ) : ℤ) by omega,
        getPixelIndex_natCast]
    rw [hTo]
    rw [hT] at hp
    omega
  have hwr : ∀ (p : ℕ), (y * w + x) * 4 + 3 ≤ p → ∀ (v0 v1 v2 : ℕ),
      (((buf.set ((y * w + x) * 4) v0).set ((y * w + x) * 4 + 1) v1).set
          ((y * w + x) * 4 + 2) v2).getD p 0 = buf.getD p 0 := by
    intro p hple v0 v1 v2
    rw [getD_set_ne _ _ _ _ (by omega), getD_set_ne _ _ _ _ (by omega),
      getD_set_ne _ _ _ _ (by omega)]
  simp only [processPixelIn, fsKernel, List.foldl]
  refine ⟨?_, ?_, ?_⟩
  · rw [hne4 _ _ _ _ (Or.inl rfl),
      hne3 _ _ _ _ (Or.inl rfl),
      hne2 _ _ _ _ (Or.inl rfl),
      (distributeError_getD_hit w h x y _ _ 1 0 (mkRat 7 16) hg
        (by
          simp only [length_distributeError, List.length_set, hlen]
          rw [hT]
          have hidx := idx_lt_len w h (x + 1) (y) (by omega) (by omega)
          omega)).1,
      hwr _ (by rw [hT]; omega)]
    congr 1
    push_cast
    ring
  · rw [hne4 _ _ _ _ (Or.inr (Or.inl rfl)),
      hne3 _ _ _ _ (Or.inr (Or.inl rfl)),
      hne2 _ _ _ _ (Or.inr (Or.inl rfl)),
      (distributeError_getD_hit w h x y _ _ 1 0 (mkRat 7 16) hg
        (by
          simp only [length_distributeError, List.length_set, hlen]
          rw [hT]
          have hidx := idx_lt_len w h (x + 1) (y) (by omega) (by omega)
          omega)).2.1,
      hwr _ (by rw [hT]; omega)]
    congr 1
    push_cast
    ring
  · rw [hne4 _ _ _ _ (Or.inr (Or.inr rfl)),
      hne3 _ _ _ _ (Or.inr (Or.inr rfl)),
      hne2 _ _ _ _ (Or.inr (Or.inr rfl)),
      (distributeError_getD_hit w h x y _ _ 1 0 (mkRat 7 16) hg
        (by
          simp only [length_distributeError, List.length_set, hlen]
          rw [hT]
          have hidx := idx_lt_len w h (x + 1) (y) (by omega) (by omega)
          omega)).2.2,
      hwr _ (by rw [hT]; omega)]
    congr 1
    push_cast
    ring

/-- Effect of processing a pixel on its south-west neighbour, when in bounds: each channel receives the corresponding error component weighted by 3/16 through the clamping store. -/
theorem processPixelIn_southwest (pal : List (ℕ × ℕ × ℕ)) (w h x y : ℕ)
    (buf : List ℕ) (hlen : buf.length = w * h * 4) (hx : x < w) (_hy : y < h)
    (hg : inBounds w h ((x:ℤ) + (-1)) ((y:ℤ) + 1) = true) :
    (processPixelIn pal w h x y buf).getD
        (getPixelIndex w ((x:ℤ) + (-1)) ((y:ℤ) + 1)) 0
      = toUint8Clamp
          ((buf.getD (getPixelIndex w ((x:ℤ) + (-1)) ((y:ℤ) + 1)) 0 : ℚ)
            + (((buf.getD ((y * w + x) * 4) 0 : ℤ)
                - ((findClosestPaletteColorIn pal
                      (buf.getD ((y * w + x) * 4) 0 : ℤ)
                      (buf.getD ((y * w + x) * 4 + 1) 0 : ℤ)
                      (buf.getD ((y * w + x) * 4 + 2) 0 : ℤ)).1 : ℤ)) : ℚ)
              * mkRat 3 16) ∧
    (processPixelIn pal w h x y buf).getD
        (getPixelIndex w ((x:ℤ) + (-1)) ((y:ℤ) + 1) + 1) 0
      = toUint8Clamp
          ((buf.getD (getPixelIndex w ((x:ℤ) + (-1)) ((y:ℤ) + 1) + 1) 0 : ℚ)
            + (((buf.getD ((y * w + x) * 4 + 1) 0 : ℤ)
                - ((findClosestPaletteColorIn pal
                      (buf.getD ((y * w + x) * 4) 0 : ℤ)
                      (buf.getD ((y * w + x) * 4 + 1) 0 : ℤ)
                      (buf.getD ((y * w + x) * 4 + 2) 0 : ℤ)).2.1 : ℤ)) : ℚ)
              * mkRat 3 16) ∧
    (processPixelIn pal w h x y buf).getD
        (getPixelIndex w ((x:ℤ) + (-1)) ((y:ℤ) + 1) + 2) 0
      = toUint8Clamp
          ((buf.getD (getPixelIndex w ((x:ℤ) + (-1)) ((y:ℤ) + 1) + 2) 0 : ℚ)
            + (((buf.getD ((y * w + x) * 4 + 2) 0 : ℤ)
                - ((findClosestPaletteColorIn pal
                      (buf.getD ((y * w + x) * 4) 0 : ℤ)
                      (buf.getD ((y * w + x) * 4 + 1) 0 : ℤ)
                      (buf.getD ((y * w + x) * 4 + 2) 0 : ℤ)).2.2 : ℤ)) : ℚ)
              * mkRat 3 16) := by
  obtain ⟨hb0, hb1, hb2, hb3⟩ := (inBounds_iff w h _ _).mp hg
  have hx1 : 1 ≤ x := by omega
  have hy1 : y + 1 < h := by omega
  have hT : getPixelIndex w ((x:ℤ) + (-1)) ((y:ℤ) + 1) = ((y + 1) * w + (x - 1)) * 4 := by
    rw [show (x:ℤ) + (-1) = ((x - 1 : ℕ) : ℤ) by omega,
      show (y:ℤ) + 1 = ((y + 1 : ℕ) : ℤ) by omega, getPixelIndex_natCast]
  have hmul : (y + 1) * w = y * w + w := by ring
  have hne4 : ∀ (E : ℤ × ℤ × ℤ) (b : List ℕ) (f : ℚ) (p : ℕ),
      (p = getPixelIndex w ((x:ℤ) + (-1)) ((y:ℤ) + 1) ∨
       p = getPixelIndex w ((x:ℤ) + (-1)) ((y:ℤ) + 1) + 1 ∨
       p = getPixelIndex w ((x:ℤ) + (-1)) ((y:ℤ) + 1) + 2) →
      (distributeError w h x y E b 1 1 f).getD p 0 = b.getD p 0 := by
    intro E b f p hp
    apply distributeError_getD_ne
    intro hgo
    obtain ⟨hc0, hc1, hc2, hc3⟩ := (inBounds_iff w h _ _).mp hgo
    have hTo : getPixelIndex w ((x:ℤ) + 1) ((y:ℤ) + 1)
        = ((y + 1) * w + (x + 1)) * 4 := by
      rw [show (x:ℤ) + 1 = ((x + 1 : ℕ) : ℤ) by omega,
        show (y:ℤ) + 1 = ((y + 1 : ℕ) : ℤ) by omega,
        getPixelIndex_natCast]
    rw [hTo]
    rw [hT] at hp
    omega
  have hne3 : ∀ (E : ℤ × ℤ × ℤ) (b : List ℕ) (f : ℚ) (p : ℕ),
      (p = getPixelIndex w ((x:ℤ) + (-1)) ((y:ℤ) + 1) ∨
       p = getPixelIndex w ((x:ℤ) + (-1)) ((y:ℤ) + 1) + 1 ∨
       p = getPixelIndex w ((x:ℤ) + (-1)) ((y:ℤ) + 1) + 2) →
      (distributeError w h x y E b 0 1 f).getD p 0 = b.getD p 0 := by
    intro E b f p hp
    apply distributeError_getD_ne
    intro hgo
    obtain ⟨hc0, hc1, hc2, hc3⟩ := (inBounds_iff w h _ _).mp hgo
    have hTo : getPixelIndex w ((x:ℤ) + 0) ((y:ℤ) + 1)
        = ((y + 1) * w + (x)) * 4 := by
      rw [show (x:ℤ) + 0 = ((x : ℕ) : ℤ) by omega,
        show (y:ℤ) + 1 = ((y + 1 : ℕ) : ℤ) by omega,
        getPixelIndex_natCast]
    rw [hTo]
    rw [hT] at hp
    omega
  have hne1 : ∀ (E : ℤ × ℤ × ℤ) (b : List ℕ) (f : ℚ) (p : ℕ),
      (p = getPixelIndex w ((x:ℤ) + (-1)) ((y:ℤ) + 1) ∨
       p = getPixelIndex w ((x:ℤ) + (-1)) ((y:ℤ) + 1) + 1 ∨
       p = getPixelIndex w ((x:ℤ) + (-1)) ((y:ℤ) + 1) + 2) →
      (distributeError w h x y E b 1 0 f).getD p 0 = b.getD p 0 := by
    intro E b f p hp
    apply distributeError_getD_ne
    intro hgo
    obtain ⟨hc0, hc1, hc2, hc3⟩ := (inBounds_iff w h _ _).mp hgo
    have hTo : getPixelIndex w ((x:ℤ) + 1) ((y:ℤ) + 0)
        = ((y) * w + (x + 1)) * 4 := by
      rw [show (x:ℤ) + 1 = ((x + 1 : ℕ) : ℤ) by omega,
        show (y:ℤ) + 0 = ((y : ℕ) : ℤ) by omega,
        getPixelIndex_natCast]
    rw [hTo]
    rw [hT] at hp
    omega
  have hwr : ∀ (p : ℕ), (y * w + x) * 4 + 3 ≤ p → ∀ (v0 v1 v2 : ℕ),
      (((buf.set ((y * w + x) * 4) v0).set ((y * w + x) * 4 + 1) v1).set
          ((y * w + x) * 4 + 2) v2).getD p 0 = buf.getD p 0 := by
    intro p hple v0 v1 v2
    rw [getD_set_ne _ _ _ _ (by omega), getD_set_ne _ _ _ _ (by omega),
      getD_set_ne _ _ _ _ (by omega)]
  simp only [processPixelIn, fsKernel, List.foldl]
  refine ⟨?_, ?_, ?_⟩
  · rw [hne4 _ _ _ _ (Or.inl rfl),
      hne3 _ _ _ _ (Or.inl rfl),
      (distributeError_getD_hit w h x y _ _ (-1) 1 (mkRat 3 16) hg
        (by
          simp only [length_distributeError, List.length_set, hlen]
          rw [hT]
          have hidx := idx_lt_len w h (x - 1) (y + 1) (by omega) (by omega)
          omega)).1,
      hne1 _ _ _ _ (Or.inl rfl),
      hwr _ (by rw [hT]; omega)]
    congr 1
    push_cast
    ring
  · rw [hne4 _ _ _ _ (Or.inr (Or.inl rfl)),
      hne3 _ _ _ _ (Or.inr (Or.inl rfl)),
      (distributeError_getD_hit w h x y _ _ (-1) 1 (mkRat 3 16) hg
        (by
          simp only [length_distributeError, List.length_set, hlen]
          rw [hT]
          have hidx := idx_lt_len w h (x - 1) (y + 1) (by omega) (by omega)
          omega)).2.1,
      hne1 _ _ _ _ (Or.inr (Or.inl rfl)),
      hwr _ (by rw [hT]; omega)]
    congr 1
    push_cast
    ring
  · rw [hne4 _ _ _ _ (Or.inr (Or.inr rfl)),
      hne3 _ _ _ _ (Or.inr (Or.inr rfl)),
      (distributeError_getD_hit w h x y _ _ (-1) 1 (mkRat 3 16) hg
        (by
          simp only [length_distributeError, List.length_set, hlen]
          rw [hT]
          have hidx := idx_lt_len w h (x - 1) (y + 1) (by omega) (by omega)
          omega)).2.2,
      hne1 _ _ _ _ (Or.inr (Or.inr rfl)),
      hwr _ (by rw [hT]; omega)]
    congr 1
    push_cast
    ring

/-- Effect of processing a pixel on its south neighbour, when in bounds: each channel receives the corresponding error component weighted by 5/16 through the clamping store. -/
theorem processPixelIn_south (pal : List (ℕ × ℕ × ℕ)) (w h x y : ℕ)
    (buf : List ℕ) (hlen : buf.length = w * h * 4) (hx : x < w) (_hy : y < h)
    (hg : inBounds w h ((x:ℤ) + 0) ((y:ℤ) + 1) = true) :
    (processPixelIn pal w h x y buf).getD
        (getPixelIndex w ((x:ℤ) + 0) ((y:ℤ) + 1)) 0
      = toUint8Clamp
          ((buf.getD (getPixelIndex w ((x:ℤ) + 0) ((y:ℤ) + 1)) 0 : ℚ)
            + (((buf.getD ((y * w + x) * 4) 0 : ℤ)
                - ((findClosestPaletteColorIn pal
                      (buf.getD ((y * w + x) * 4) 0 : ℤ)
                      (buf.getD ((y * w + x) * 4 + 1) 0 : ℤ)
                      (buf.getD ((y * w + x) * 4 + 2) 0 : ℤ)).1 : ℤ)) : ℚ)
              * mkRat 5 16) ∧
    (processPixelIn pal w h x y buf).getD
        (getPixelIndex w ((x:ℤ) + 0) ((y:ℤ) + 1) + 1) 0
      = toUint8Clamp
          ((buf.getD (getPixelIndex w ((x:ℤ) + 0) ((y:ℤ) + 1) + 1) 0 : ℚ)
            + (((buf.getD ((y * w + x) * 4 + 1) 0 : ℤ)
                - ((findClosestPaletteColorIn pal
                      (buf.getD ((y * w + x) * 4) 0 : ℤ)
                      (buf.getD ((y * w + x) * 4 + 1) 0 : ℤ)
                      (buf.getD ((y * w + x) * 4 + 2) 0 : ℤ)).2.1 : ℤ)) : ℚ)
              * mkRat 5 16) ∧
    (processPixelIn pal w h x y buf).getD
        (getPixelIndex w ((x:ℤ) + 0) ((y:ℤ) + 1) + 2) 0
      = toUint8Clamp
          ((buf.getD (getPixelIndex w ((x:ℤ) + 0) ((y:ℤ) + 1) + 2) 0 : ℚ)
            + (((buf.getD ((y * w + x) * 4 + 2) 0 : ℤ)
                - ((findClosestPaletteColorIn pal
                      (buf.getD ((y * w + x) * 4) 0 : ℤ)
                      (buf.getD ((y * w + x) * 4 + 1) 0 : ℤ)
                      (buf.getD ((y * w + x) * 4 + 2) 0 : ℤ)).2.2 : ℤ)) : ℚ)
              * mkRat 5 16) := by
  obtain ⟨hb0, hb1, hb2, hb3⟩ := (inBounds_iff w h _ _).mp hg
  have hy1 : y + 1 < h := by omega
  have hT : getPixelIndex w ((x:ℤ) + 0) ((y:ℤ) + 1) = ((y + 1) * w + x) * 4 := by
    rw [show (x:ℤ) + 0 = ((x : ℕ) : ℤ) by omega,
      show (y:ℤ) + 1 = ((y + 1 : ℕ) : ℤ) by omega, getPixelIndex_natCast]
  have hmul : (y + 1) * w = y * w + w := by ring
  have hne4 : ∀ (E : ℤ × ℤ × ℤ) (b : List ℕ) (f : ℚ) (p : ℕ),
      (p = getPixelIndex w ((x:ℤ) + 0) ((y:ℤ) + 1) ∨
       p = getPixelIndex w ((x:ℤ) + 0) ((y:ℤ) + 1) + 1 ∨
       p = getPixelIndex w ((x:ℤ) + 0) ((y:ℤ) + 1) + 2) →
      (distributeError w h x y E b 1 1 f).getD p 0 = b.getD p 0 := by
    intro E b f p hp
    apply distributeError_getD_ne
    intro hgo
    obtain ⟨hc0, hc1, hc2, hc3⟩ := (inBounds_iff w h _ _).mp hgo
    have hTo : getPixelIndex w ((x:ℤ) + 1) ((y:ℤ) + 1)
        = ((y + 1) * w + (x + 1)) * 4 := by
      rw [show (x:ℤ) + 1 = ((x + 1 : ℕ) : ℤ) by omega,
        show (y:ℤ) + 1 = ((y + 1 : ℕ) : ℤ) by omega,
        getPixelIndex_natCast]
    rw [hTo]
    rw [hT] at hp
    omega
  have hne2 : ∀ (E : ℤ × ℤ × ℤ) (b : List ℕ) (f : ℚ) (p : ℕ),
      (p = getPixelIndex w ((x:ℤ) + 0) ((y:ℤ) + 1) ∨
       p = getPixelIndex w ((x:ℤ) + 0) ((y:ℤ) + 1) + 1 ∨
       p = getPixelIndex w ((x:ℤ) + 0) ((y:ℤ) + 1) + 2) →
      (distributeError w h x y E b (-1) 1 f).getD p 0 = b.getD p 0 := by
    intro E b f p hp
    apply distributeError_getD_ne
    intro hgo
    obtain ⟨hc0, hc1, hc2, hc3⟩ := (inBounds_iff w h _ _).mp hgo
    have hx1 : 1 ≤ x := by omega
    have hTo : getPixelIndex w ((x:ℤ) + (-1)) ((y:ℤ) + 1)
        = ((y + 1) * w + (x - 1)) * 4 := by
      rw [show (x:ℤ) + (-1) = ((x - 1 : ℕ) : ℤ) by omega,
        show (y:ℤ) + 1 = ((y + 1 : ℕ) : ℤ) by omega,
        getPixelIndex_natCast]
    rw [hTo]
    rw [hT] at hp
    omega
  have hne1 : ∀ (E : ℤ × ℤ × ℤ) (b : List ℕ) (f : ℚ) (p : ℕ),
      (p = getPixelIndex w ((x:ℤ) + 0) ((y:ℤ) + 1) ∨
       p = getPixelIndex w ((x:ℤ) + 0) ((y:ℤ) + 1) + 1 ∨
       p = getPixelIndex w ((x:ℤ) + 0) ((y:ℤ) + 1) + 2) →
      (distributeError w h x y E b 1 0 f).getD p 0 = b.getD p 0 := by
    intro E b f p hp
    apply distributeError_getD_ne
    intro hgo
    obtain ⟨hc0, hc1, hc2, hc3⟩ := (inBounds_iff w h _ _).mp hgo
    have hTo : getPixelIndex w ((x:ℤ) + 1) ((y:ℤ) + 0)
        = ((y) * w + (x + 1)) * 4 := by
      rw [show (x:ℤ) + 1 = ((x + 1 : ℕ) : ℤ) by omega,
        show (y:ℤ) + 0 = ((y : ℕ) : ℤ) by omega,
        getPixelIndex_natCast]
    rw [hTo]
    rw [hT] at hp
    omega
  have hwr : ∀ (p : ℕ), (y * w + x) * 4 + 3 ≤ p → ∀ (v0 v1 v2 : ℕ),
      (((buf.set ((y * w + x) * 4) v0).set ((y * w + x) * 4 + 1) v1).set
          ((y * w + x) * 4 + 2) v2).getD p 0 = buf.getD p 0 := by
    intro p hple v0 v1 v2
    rw [getD_set_ne _ _ _ _ (by omega), getD_set_ne _ _ _ _ (by omega),
      getD_set_ne _ _ _ _ (by omega)]
  simp only [processPixelIn, fsKernel, List.foldl]
  refine ⟨?_, ?_, ?_⟩
  · rw [hne4 _ _ _ _ (Or.inl rfl),
      (distributeError_getD_hit w h x y _ _ 0 1 (mkRat 5 16) hg
        (by
          simp only [length_distributeError, List.length_set, hlen]
          rw [hT]
          have hidx := idx_lt_len w h (x) (y + 1) (by omega) (by omega)
          omega)).1,
      hne2 _ _ _ _ (Or.inl rfl),
      hne1 _ _ _ _ (Or.inl rfl),
      hwr _ (by rw [hT]; omega)]
    congr 1
    push_cast
    ring
  · rw [hne4 _ _ _ _ (Or.inr (Or.inl rfl)),
      (distributeError_getD_hit w h x y _ _ 0 1 (mkRat 5 16) hg
        (by
          simp only [length_distributeError, List.length_set, hlen]
          rw [hT]
          have hidx := idx_lt_len w h (x) (y + 1) (by omega) (by omega)
          omega)).2.1,
      hne2 _ _ _ _ (Or.inr (Or.inl rfl)),
      hne1 _ _ _ _ (Or.inr (Or.inl rfl)),
      hwr _ (by rw [hT]; omega)]
    congr 1
    push_cast
    ring
  · rw [hne4 _ _ _ _ (Or.inr (Or.inr rfl)),
      (distributeError_getD_hit w h x y _ _ 0 1 (mkRat 5 16) hg
        (by
          simp only [length_distributeError, List.length_set, hlen]
          rw [hT]
          have hidx := idx_lt_len w h (x) (y + 1) (by omega) (by omega)
          omega)).2.2,
      hne2 _ _ _ _ (Or.inr (Or.inr rfl)),
      hne1 _ _ _ _ (Or.inr (Or.inr rfl)),
      hwr _ (by rw [hT]; omega)]
    congr 1
    push_cast
    ring

/-- Effect of processing a pixel on its south-east neighbour, when in bounds: each channel receives the corresponding error component weighted by 1/16 through the clamping store. -/
theorem processPixelIn_southeast (pal : List (ℕ × ℕ × ℕ)) (w h x y : ℕ)
    (buf : List ℕ) (hlen : buf.length = w * h * 4) (_hx : x < w) (_hy : y < h)
    (hg : inBounds w h ((x:ℤ) + 1) ((y:ℤ) + 1) = true) :
    (processPixelIn pal w h x y buf).getD
        (getPixelIndex w ((x:ℤ) + 1) ((y:ℤ) + 1)) 0
      = toUint8Clamp
          ((buf.getD (getPixelIndex w ((x:ℤ) + 1) ((y:ℤ) + 1)) 0 : ℚ)
            + (((buf.getD ((y * w + x) * 4) 0 : ℤ)
                - ((findClosestPaletteColorIn pal
                      (buf.getD ((y * w + x) * 4) 0 : ℤ)
                      (buf.getD ((y * w + x) * 4 + 1) 0 : ℤ)
                      (buf.getD ((y * w + x) * 4 + 2) 0 : ℤ)).1 : ℤ)) : ℚ)
              * mkRat 1 16) ∧
    (processPixelIn pal w h x y buf).getD
        (getPixelIndex w ((x:ℤ) + 1) ((y:ℤ) + 1) + 1) 0
      = toUint8Clamp
          ((buf.getD (getPixelIndex w ((x:ℤ) + 1) ((y:ℤ) + 1) + 1) 0 : ℚ)
            + (((buf.getD ((y * w + x) * 4 + 1) 0 : ℤ)
                - ((findClosestPaletteColorIn pal
                      (buf.getD ((y * w + x) * 4) 0 : ℤ)
                      (buf.getD ((y * w + x) * 4 + 1) 0 : ℤ)
                      (buf.getD ((y * w + x) * 4 + 2) 0 : ℤ)).2.1 : ℤ)) : ℚ)
              * mkRat 1 16) ∧
    (processPixelIn pal w h x y buf).getD
        (getPixelIndex w ((x:ℤ) + 1) ((y:ℤ) + 1) + 2) 0
      = toUint8Clamp
          ((buf.getD (getPixelIndex w ((x:ℤ) + 1) ((y:ℤ) + 1) + 2) 0 : ℚ)
            + (((buf.getD ((y * w + x) * 4 + 2) 0 : ℤ)
                - ((findClosestPaletteColorIn pal
                      (buf.getD ((y * w + x) * 4) 0 : ℤ)
                      (buf.getD ((y * w + x) * 4 + 1) 0 : ℤ)
                      (buf.getD ((y * w + x) * 4 + 2) 0 : ℤ)).2.2 : ℤ)) : ℚ)
              * mkRat 1 16) := by
  obtain ⟨hb0, hb1, hb2, hb3⟩ := (inBounds_iff w h _ _).mp hg
  have hxw : x + 1 < w := by omega
  have hy1 : y + 1 < h := by omega
  have hT : getPixelIndex w ((x:ℤ) + 1) ((y:ℤ) + 1) = ((y + 1) * w + (x + 1)) * 4 := by
    rw [show (x:ℤ) + 1 = ((x + 1 : ℕ) : ℤ) by omega,
      show (y:ℤ) + 1 = ((y + 1 : ℕ) : ℤ) by omega, getPixelIndex_natCast]
  have hmul : (y + 1) * w = y * w + w := by ring
  have hne3 : ∀ (E : ℤ × ℤ × ℤ) (b : List ℕ) (f : ℚ) (p : ℕ),
      (p = getPixelIndex w ((x:ℤ) + 1) ((y:ℤ) + 1) ∨
       p = getPixelIndex w ((x:ℤ) + 1) ((y:ℤ) + 1) + 1 ∨
       p = getPixelIndex w ((x:ℤ) + 1) ((y:ℤ) + 1) + 2) →
      (distributeError w h x y E b 0 1 f).getD p 0 = b.getD p 0 := by
    intro E b f p hp
    apply distributeError_getD_ne
    intro hgo
    obtain ⟨hc0, hc1, hc2, hc3⟩ := (inBounds_iff w h _ _).mp hgo
    have hTo : getPixelIndex w ((x:ℤ) + 0) ((y:ℤ) + 1)
        = ((y + 1) * w + (x)) * 4 := by
      rw [show (x:ℤ) + 0 = ((x : ℕ) : ℤ) by omega,
        show (y:ℤ) + 1 = ((y + 1 : ℕ) : ℤ) by omega,
        getPixelIndex_natCast]
    rw [hTo]
    rw [hT] at hp
    omega
  have hne2 : ∀ (E : ℤ × ℤ × ℤ) (b : List ℕ) (f : ℚ) (p : ℕ),
      (p = getPixelIndex w ((x:ℤ) + 1) ((y:ℤ) + 1) ∨
       p = getPixelIndex w ((x:ℤ) + 1) ((y:ℤ) + 1) + 1 ∨
       p = getPixelIndex w ((x:ℤ) + 1) ((y:ℤ) + 1) + 2) →
      (distributeError w h x y E b (-1) 1 f).getD p 0 = b.getD p 0 := by
    intro E b f p hp
    apply distributeError_getD_ne
    intro hgo
    obtain ⟨hc0, hc1, hc2, hc3⟩ := (inBounds_iff w h _ _).mp hgo
    have hx1 : 1 ≤ x := by omega
    have hTo : getPixelIndex w ((x:ℤ) + (-1)) ((y:ℤ) + 1)
        = ((y + 1) * w + (x - 1)) * 4 := by
      rw [show (x:ℤ) + (-1) = ((x - 1 : ℕ) : ℤ) by omega,
        show (y:ℤ) + 1 = ((y + 1 : ℕ) : ℤ) by omega,
        getPixelIndex_natCast]
    rw [hTo]
    rw [hT] at hp
    omega
  have hne1 : ∀ (E : ℤ × ℤ × ℤ) (b : List ℕ) (f : ℚ) (p : ℕ),
      (p = getPixelIndex w ((x:ℤ) + 1) ((y:ℤ) + 1) ∨
       p = getPixelIndex w ((x:ℤ) + 1) ((y:ℤ) + 1) + 1 ∨
       p = getPixelIndex w ((x:ℤ) + 1) ((y:ℤ) + 1) + 2) →
      (distributeError w h x y E b 1 0 f).getD p 0 = b.getD p 0 := by
    intro E b f p hp
    apply distributeError_getD_ne
    intro hgo
    obtain ⟨hc0, hc1, hc2, hc3⟩ := (inBounds_iff w h _ _).mp hgo
    have hTo : getPixelIndex w ((x:ℤ) + 1) ((y:ℤ) + 0)
        = ((y) * w + (x + 1)) * 4 := by
      rw [show (x:ℤ) + 1 = ((x + 1 : ℕ) : ℤ) by omega,
        show (y:ℤ) + 0 = ((y : ℕ) : ℤ) by omega,
        getPixelIndex_natCast]
    rw [hTo]
    rw [hT] at hp
    omega
  have hwr : ∀ (p : ℕ), (y * w + x) * 4 + 3 ≤ p → ∀ (v0 v1 v2 : ℕ),
      (((buf.set ((y * w + x) * 4) v0).set ((y * w + x) * 4 + 1) v1).set
          ((y * w + x) * 4 + 2) v2).getD p 0 = buf.getD p 0 := by
    intro p hple v0 v1 v2
    rw [getD_set_ne _ _ _ _ (by omega), getD_set_ne _ _ _ _ (by omega),
      getD_set_ne _ _ _ _ (by omega)]
  simp only [processPixelIn, fsKernel, List.foldl]
  refine ⟨?_, ?_, ?_⟩
  · rw [(distributeError_getD_hit w h x y _ _ 1 1 (mkRat 1 16) hg
        (by
          simp only [length_distributeError, List.length_set, hlen]
          rw [hT]
          have hidx := idx_lt_len w h (x + 1) (y + 1) (by omega) (by omega)
          omega)).1,
      hne3 _ _ _ _ (Or.inl rfl),
      hne2 _ _ _ _ (Or.inl rfl),
      hne1 _ _ _ _ (Or.inl rfl),
      hwr _ (by rw [hT]; omega)]
    congr 1
    push_cast
    ring
  · rw [(distributeError_getD_hit w h x y _ _ 1 1 (mkRat 1 16) hg
        (by
          simp only [length_distributeError, List.length_set, hlen]
          rw [hT]
          have hidx := idx_lt_len w h (x + 1) (y + 1) (by omega) (by omega)
          omega)).2.1,
      hne3 _ _ _ _ (Or.inr (Or.inl rfl)),
      hne2 _ _ _ _ (Or.inr (Or.inl rfl)),
      hne1 _ _ _ _ (Or.inr (Or.inl rfl)),
      hwr _ (by rw [hT]; omega)]
    congr 1
    push_cast
    ring
  · rw [(distributeError_getD_hit w h x y _ _ 1 1 (mkRat 1 16) hg
        (by
          simp only [length_distributeError, List.length_set, hlen]
          rw [hT]
          have hidx := idx_lt_len w h (x + 1) (y + 1) (by omega) (by omega)
          omega)).2.2,
      hne3 _ _ _ _ (Or.inr (Or.inr rfl)),
      hne2 _ _ _ _ (Or.inr (Or.inr rfl)),
      hne1 _ _ _ _ (Or.inr (Or.inr rfl)),
      hwr _ (by rw [hT]; omega)]
    congr 1
    push_cast
    ring

/-- C3: for every pixel the engine diffuses the per-channel quantisation
error (old colour minus matched colour) additively, through the clamping
store, to exactly the four kernel neighbours with the weights 7/16, 3/16,
5/16 and 1/16 in scan order; an out-of-bounds neighbour is silently
skipped, and no sample other than the pixel itself and its in-bounds
kernel neighbours is modified.  The four weights sum to 1; the weight mass
actually applied is exactly 1 for interior pixels and strictly below 1 on
the left, right and bottom edges. -/
theorem C3_error_diffusion (w h x y : ℕ) (buf : List ℕ)
    (hlen : buf.length = w * h * 4) (hx : x < w) (hy : y < h) :
    (∀ dx dy f, ((dx, dy), f) ∈ fsKernel →
      inBounds w h ((x:ℤ) + dx) ((y:ℤ) + dy) = true →
      ((processPixel w h x y buf).getD
          (getPixelIndex w ((x:ℤ) + dx) ((y:ℤ) + dy)) 0
        = toUint8Clamp
            ((buf.getD (getPixelIndex w ((x:ℤ) + dx) ((y:ℤ) + dy)) 0 : ℚ)
              + (((buf.getD ((y * w + x) * 4) 0 : ℤ)
                  - ((findClosestPaletteColor
                        (buf.getD ((y * w + x) * 4) 0 : ℤ)
                        (buf.getD ((y * w + x) * 4 + 1) 0 : ℤ)
                        (buf.getD ((y * w + x) * 4 + 2) 0 : ℤ)).1 : ℤ)) : ℚ)
                * f)) ∧
      ((processPixel w h x y buf).getD
          (getPixelIndex w ((x:ℤ) + dx) ((y:ℤ) + dy) + 1) 0
        = toUint8Clamp
            ((buf.getD (getPixelIndex w ((x:ℤ) + dx) ((y:ℤ) + dy) + 1) 0 : ℚ)
              + (((buf.getD ((y * w + x) * 4 + 1) 0 : ℤ)
                  - ((findClosestPaletteColor
                        (buf.getD ((y * w + x) * 4) 0 : ℤ)
                        (buf.getD ((y * w + x) * 4 + 1) 0 : ℤ)
                        (buf.getD ((y * w + x) * 4 + 2) 0 : ℤ)).2.1 : ℤ)) : ℚ)
                * f)) ∧
      ((processPixel w h x y buf).getD
          (getPixelIndex w ((x:ℤ) + dx) ((y:ℤ) + dy) + 2) 0
        = toUint8Clamp
            ((buf.getD (getPixelIndex w ((x:ℤ) + dx) ((y:ℤ) + dy) + 2) 0 : ℚ)
              + (((buf.getD ((y * w + x) * 4 + 2) 0 : ℤ)
                  - ((findClosestPaletteColor
                        (buf.getD ((y * w + x) * 4) 0 : ℤ)
                        (buf.getD ((y * w + x) * 4 + 1) 0 : ℤ)
                        (buf.getD ((y * w + x) * 4 + 2) 0 : ℤ)).2.2 : ℤ)) : ℚ)
                * f))) ∧
    (∀ p, (p ≠ (y * w + x) * 4 ∧ p ≠ (y * w + x) * 4 + 1 ∧
           p ≠ (y * w + x) * 4 + 2) →
      (∀ dx dy f, ((dx, dy), f) ∈ fsKernel →
        inBounds w h ((x:ℤ) + dx) ((y:ℤ) + dy) = true →
        (p ≠ getPixelIndex w ((x:ℤ) + dx) ((y:ℤ) + dy) ∧
         p ≠ getPixelIndex w ((x:ℤ) + dx) ((y:ℤ) + dy) + 1 ∧
         p ≠ getPixelIndex w ((x:ℤ) + dx) ((y:ℤ) + dy) + 2)) →
      (processPixel w h x y buf).getD p 0 = buf.getD p 0) ∧
    (fsKernel.map Prod.snd).sum = 1 ∧
    fsKernel.map Prod.snd = [7/16, 3/16, 5/16, 1/16] ∧
    (1 ≤ x → x + 1 < w → y + 1 < h → appliedWeight w h x y = 1) ∧
    ((x = 0 ∨ x + 1 = w ∨ y + 1 = h) → appliedWeight w h x y < 1) := by
  refine ⟨?_, ?_, ?_, ?_, ?_, ?_⟩
  · intro dx dy f hmem hg
    simp only [fsKernel, List.mem_cons, List.not_mem_nil, or_false,
      Prod.mk.injEq] at hmem
    rcases hmem with ⟨⟨h1, h2⟩, h3⟩ | ⟨⟨h1, h2⟩, h3⟩ | ⟨⟨h1, h2⟩, h3⟩ |
      ⟨⟨h1, h2⟩, h3⟩ <;> subst h1 <;> subst h2 <;> subst h3
    · exact processPixelIn_east PALETTE w h x y buf hlen hx hy hg
    · exact processPixelIn_southwest PALETTE w h x y buf hlen hx hy hg
    · exact processPixelIn_south PALETTE w h x y buf hlen hx hy hg
    · exact processPixelIn_southeast PALETTE w h x y buf hlen hx hy hg
  · intro p hown hnb
    have hde : ∀ (E : ℤ × ℤ × ℤ) (b : List ℕ) (dx dy : ℤ) (f : ℚ),
        ((dx, dy), f) ∈ fsKernel →
        (distributeError w h x y E b dx dy f).getD p 0 = b.getD p 0 :=
      fun E b dx dy f hm =>
        distributeError_getD_ne _ _ _ _ _ _ _ _ _ _ (fun hg => hnb dx dy f hm hg)
    simp only [processPixel, processPixelIn, fsKernel, List.foldl]
    rw [hde _ _ 1 1 _ (by decide), hde _ _ 0 1 _ (by decide),
      hde _ _ (-1) 1 _ (by decide), hde _ _ 1 0 _ (by decide),
      getD_set_ne _ _ _ _ (Ne.symm hown.2.2),
      getD_set_ne _ _ _ _ (Ne.symm hown.2.1),
      getD_set_ne _ _ _ _ (Ne.symm hown.1)]
  · exact of_decide_eq_true (by with_unfolding_all rfl)
  · norm_num [fsKernel, Rat.mkRat_eq_div]
  · intro h1 h2 h3
    exact appliedWeight_interior w h x y h1 h2 h3
  · intro hedge
    exact appliedWeight_edge w h x y hedge

theorem C3_error_diffusion_witness : appliedWeight 3 2 1 0 = 1 :=
  (C3_error_diffusion 3 2 1 0 (List.replicate 24 0) (by decide) (by decide)
    (by decide)).2.2.2.2.1 (by decide) (by decide) (by decide)

/-- C3 counterexample: the diffusion update is not purely additive on the
stored values: processing the first pixel of a 2 by 1 image with colour
(1,1,1) produces the error (1,1,1), and the east neighbour holding 10
stores 10 again, although the exact additive value 10 plus 7/16 is not 10;
the fractional part of every diffusion contribution is rounded away by the
Uint8ClampedArray store. -/
theorem C3_counterexample :
    (processPixel 2 1 0 0 [1, 1, 1, 255, 10, 10, 10, 255]).getD 4 0 = 10 ∧
    ¬((10:ℚ) + 1 * mkRat 7 16 = 10) ∧
    findClosestPaletteColor 1 1 1 = (0, 0, 0) :=
  of_decide_eq_true (by with_unfolding_all rfl)
